import Mathlib

/-!
Verification of the `reverse_patch` scope-substitution engine
(`src/reverse_patch/reverse_patch_itself.py`).

The embedding models Python values as `PyVal`: `module` is the testing
module object, `real p` is an original (non-mock) object addressed by the
dotted path `p` from the testing module, and `mock r p` is a `MagicMock`:
root `0` is the autospec mock of the testing module created on session
entry, roots `r+1` are the fresh `MagicMock()` instances created during the
session (numbered by a counter), and `p` is the chain of attribute names
walked from that root (MagicMock returns the same child mock for repeated
accesses of one attribute, so a root plus an attribute path identifies a
mock).

`patch.object(target, name, value)` effects are an overlay `Memory` from
attribute locations to values: a location that the overlay does not map
(`none`) holds its original value (for the module: its `__dict__` entry;
for a real object: the value `realGet` reports; for a mock: the
auto-vivified child mock).  Each applied patcher records the prior overlay
entry so teardown can put it back; restoring `none` returns the location to
its original state, which also covers `create=True` patchers that delete
the attribute on exit.  The autospec restriction of the module mock (an
attribute access for a name the spec does not have raises) is not modelled:
mock attribute access is total here, while resolution of exclude paths
against the real module (`_getattr_by_path`) is modelled exactly and is
where invalid paths fail in the source as well.
-/

/-- A Python value as seen by the engine. -/
inductive PyVal where
  /-- The real testing module object. -/
  | module : PyVal
  /-- An original (non-mock) object, addressed by its dotted path from the module. -/
  | real (path : List String) : PyVal
  /-- A `MagicMock`: root `0` is the autospec'd module mock, root `k+1` the
  `k`-th fresh `MagicMock()`; `path` is the attribute chain from the root. -/
  | mock (root : Nat) (path : List String) : PyVal
  deriving DecidableEq, Repr

/-- An attribute location that `patch.object` can target. -/
inductive Loc where
  /-- The `tm` attribute of the per-session `FakeModule`. -/
  | fakeTm : Loc
  /-- A top-level attribute of the real testing module. -/
  | moduleAttr (name : String) : Loc
  /-- An attribute of an original object at a dotted path. -/
  | realAttr (path : List String) (name : String) : Loc
  /-- An attribute of a mock. -/
  | mockAttr (root : Nat) (path : List String) (name : String) : Loc
  deriving DecidableEq, Repr

/-- Exceptions the engine can raise. -/
inductive PyErr where
  | valueError (msg : String)
  | attributeError (name : String)
  deriving DecidableEq, Repr

/-- One element of a caller-supplied `exclude_set`: a string (bare name or
dotted path) or a direct object reference, of which the engine only reads
the `__qualname__` attribute (`none` when the attribute is missing). -/
inductive ExcludeEntry where
  | str (s : String)
  | obj (qualname : Option String)
  deriving DecidableEq, Repr

/-- A key of the `exclusions` dictionary: the excluded callable object or
its dotted-path string. -/
inductive ExclKey where
  | byObj (v : PyVal)
  | byPath (p : String)
  deriving DecidableEq, Repr

/-- The overlay of applied patches: `none` means the location still holds
its original value. -/
def Memory := Loc → Option PyVal

/-- The initial memory of a session: module attributes come from the
module's `__dict__` snapshot, the fake parent holds the module, nothing
else is overlaid. -/
def initMemory (dict : List (String × PyVal)) : Memory := fun l =>
  match l with
  | .fakeTm => some .module
  | .moduleAttr n => (dict.find? (fun p => p.1 = n)).map Prod.snd
  | _ => none

/-- The attribute location of `(object, name)`: every value the engine
patches is the module, an original object or a mock. -/
def attrLoc : PyVal → String → Loc
  | .module, n => .moduleAttr n
  | .real p, n => .realAttr p n
  | .mock r p, n => .mockAttr r p n

/-- The environment: everything the engine observes about the Python world
that is not part of the session state.  `realGet p n` is `getattr` on the
original object at path `p`; `isExcClass p` is
`inspect.isclass(x) and issubclass(x, Exception)` for that object;
`isMockInst p` is `isinstance(x, Mock)`; `signatureParams f` is
`list(inspect.signature(f).parameters)`; `ismethod f` is
`inspect.ismethod(f)`; `dunderFunc f` is `f.__func__`. -/
structure PatchEnv where
  realGet : List String → String → Option PyVal
  isExcClass : List String → Bool
  isMockInst : List String → Bool
  signatureParams : PyVal → List String
  ismethod : PyVal → Bool
  dunderFunc : PyVal → PyVal

/-- `isinstance(v, Mock)`: mocks are `Mock` instances; an original object
is one when the environment says so (a module may genuinely contain mocks). -/
def isMockVal (env : PatchEnv) : PyVal → Bool
  | .mock _ _ => true
  | .real p => env.isMockInst p
  | .module => false

/-- `inspect.isclass(v) and issubclass(v, Exception)`: only an original
object can be an exception class (a mock instance is not a class, nor is a
module). -/
def isExcVal (env : PatchEnv) : PyVal → Bool
  | .real p => env.isExcClass p
  | _ => false

/-- `getattr` on a mock: an overlaid value if one was patched in, otherwise
the auto-vivified child mock.  Total, as in the source (MagicMock children
auto-create). -/
def getAttrOnMock (mem : Memory) (r : Nat) (p : List String) (n : String) : PyVal :=
  match mem (.mockAttr r p n) with
  | some w => w
  | none => .mock r (p ++ [n])

/-- `getattr(v, n)` under the current overlay; `none` is an
`AttributeError`. -/
def getAttr (env : PatchEnv) (mem : Memory) (v : PyVal) (n : String) : Option PyVal :=
  match v with
  | .module => mem (.moduleAttr n)
  | .real p =>
    match mem (.realAttr p n) with
    | some w => some w
    | none => env.realGet p n
  | .mock r p => some (getAttrOnMock mem r p n)

/-- `v._mock_name`: an autospec child mock is named after the attribute it
was reached by; other values have no meaningful `_mock_name`. -/
def mockName : PyVal → Option String
  | .mock _ p => p.getLast?
  | _ => none

/-- Helper for `splitDot`: split a character list on `'.'`. -/
def splitDotAux : List Char → List (List Char)
  | [] => [[]]
  | c :: cs =>
    match splitDotAux cs with
    | [] => [[]]
    | g :: gs => if c = '.' then [] :: g :: gs else (c :: g) :: gs

/-- Python `s.split('.')` (structurally recursive so that proofs can
evaluate it; same behavior as splitting on a single-character separator:
`"a.b" ↦ ["a", "b"]`, `"f" ↦ ["f"]`, `"" ↦ [""]`). -/
def splitDot (s : String) : List String :=
  (splitDotAux s.data).map String.mk

/-- Python `'.' in s` (a dotted path as opposed to a bare identifier). -/
def hasDot (s : String) : Bool := s.data.contains '.'

/-- Python `s.startswith(pre)`. -/
def strStartsWith (s pre : String) : Bool := s.data.take pre.data.length == pre.data

-- The `ArgsKwargs` container (`reverse_patch_itself.py`, class `ArgsKwargs`):
-- a list of argument values plus an internal name-to-index map.

/-- `ArgsKwargs`: the list contents (`values`) together with the
`_index_map` name-to-index association, in insertion order. -/
structure ArgsKwargs where
  values : List PyVal
  indexMap : List (String × Nat)
  deriving DecidableEq, Repr

/-- The empty `ArgsKwargs()`. -/
def ArgsKwargs.empty : ArgsKwargs := ⟨[], []⟩

/-- `add_argument`: `self._index_map[name] = len(self._index_map)` (a dict
assignment, so an existing key is overwritten and the dict's length is
unchanged in that case), then `append(value)`. -/
def ArgsKwargs.addArgument (ak : ArgsKwargs) (n : String) (v : PyVal) : ArgsKwargs :=
  { values := ak.values ++ [v]
    indexMap :=
      if (ak.indexMap.find? (fun p => p.1 = n)).isSome then
        ak.indexMap.map (fun p => if p.1 = n then (n, ak.indexMap.length) else p)
      else
        ak.indexMap ++ [(n, ak.indexMap.length)] }

/-- The body of `__getattr__` alone: look the name up in `_index_map` and
index the list (`AttributeError`, i.e. `none`, when the name is unknown).
Python only invokes `__getattr__` when normal attribute lookup failed;
full attribute access, including the names normal lookup resolves first,
is `ArgsKwargs.attr`. -/
def ArgsKwargs.get (ak : ArgsKwargs) (n : String) : Option PyVal :=
  match ak.indexMap.find? (fun p => p.1 = n) with
  | some p => ak.values.get? p.2
  | none => none

/-- The attribute names that normal Python attribute lookup finds on an
`ArgsKwargs` instance before `__getattr__` is ever consulted: the `list`
methods, the class's own attributes (`_index_map`, `add_argument`), and
the dunder slots inherited from `list`/`object`.  For these names `a.n`
is the corresponding built-in method or slot, never a stored argument
value. -/
def ArgsKwargs.shadowedNames : List String :=
  ["append", "clear", "copy", "count", "extend", "index", "insert", "pop",
   "remove", "reverse", "sort", "_index_map", "add_argument",
   "__add__", "__class__", "__contains__", "__delattr__", "__delitem__",
   "__dict__", "__dir__", "__doc__", "__eq__", "__format__", "__ge__",
   "__getattr__", "__getattribute__", "__getitem__", "__gt__", "__hash__",
   "__iadd__", "__imul__", "__init__", "__init_subclass__", "__iter__",
   "__le__", "__len__", "__lt__", "__module__", "__mul__", "__ne__",
   "__new__", "__reduce__", "__reduce_ex__", "__repr__", "__reversed__",
   "__rmul__", "__setattr__", "__setitem__", "__sizeof__", "__str__",
   "__subclasshook__", "__weakref__"]

/-- The result of Python attribute access `a.n` on an `ArgsKwargs`: the
built-in class attribute found by normal lookup, a stored argument value
reached through `__getattr__`, an uncaught `IndexError` from
`super().__getitem__`, or the `AttributeError` that `__getattr__` raises
for an unknown name. -/
inductive AttrResult where
  | classAttr (n : String)
  | value (v : PyVal)
  | indexErr
  | attrErr
  deriving DecidableEq, Repr

/-- Full Python attribute access `a.n`: normal lookup resolves `list` and
class attributes first (shadowing the stored arguments); only when it
fails does `__getattr__` run the `_index_map` lookup. -/
def ArgsKwargs.attr (ak : ArgsKwargs) (n : String) : AttrResult :=
  if n ∈ ArgsKwargs.shadowedNames then .classAttr n
  else
    match ak.indexMap.find? (fun p => p.1 = n) with
    | some p =>
      match ak.values.get? p.2 with
      | some v => .value v
      | none => .indexErr
    | none => .attrErr

/-- The `CallableDTO` result of `_get_args_and_callable`. -/
structure CallableDTO where
  args : ArgsKwargs
  c : PyVal
  deriving DecidableEq, Repr

/-- The `ReversePatchDTO` returned by `__enter__`; `exclusions` is the
dictionary from excluded callables (by object or by dotted path) to their
own `CallableDTO`. -/
structure RPDto where
  args : ArgsKwargs
  c : PyVal
  exclusions : List (ExclKey × CallableDTO)
  deriving DecidableEq, Repr

/-- The `ResultReversePatchDTO` returned by `Rc.__enter__`. -/
structure RcDto where
  r : PyVal
  args : ArgsKwargs
  c : PyVal
  exclusions : List (ExclKey × CallableDTO)
  deriving DecidableEq, Repr

/-- Python dict assignment `m[k] = v` on an association list: overwrite the
existing entry in place, otherwise append. -/
def dictSet (m : List (ExclKey × CallableDTO)) (k : ExclKey) (v : CallableDTO) :
    List (ExclKey × CallableDTO) :=
  if (m.find? (fun p => p.1 = k)).isSome then
    m.map (fun p => if p.1 = k then (k, v) else p)
  else
    m ++ [(k, v)]

/-- Python dict lookup `m[k]`. -/
def dictGet (m : List (ExclKey × CallableDTO)) (k : ExclKey) : Option CallableDTO :=
  (m.find? (fun p => p.1 = k)).map Prod.snd

-- Session state: the memory overlay, the applied patchers (in application
-- order, each with the overlay entry it replaced), and the counter of
-- fresh `MagicMock()` instances created so far.

/-- The mutable session state of one `ReversePatch` context. -/
structure Sess where
  mem : Memory
  patchers : List (Loc × Option PyVal)
  counter : Nat

/-- Apply one patcher (`patch.object(...).__enter__()`): record the prior
overlay entry for teardown, then overlay the new value. -/
def applyPatch (s : Sess) (l : Loc) (v : PyVal) : Sess :=
  { s with
    mem := fun l2 => if l2 = l then some v else s.mem l2
    patchers := s.patchers ++ [(l, s.mem l)] }

/-- A fresh `MagicMock()` (consumes the counter; fresh roots start at 1). -/
def freshMock (s : Sess) : PyVal × Sess :=
  (.mock (s.counter + 1) [], { s with counter := s.counter + 1 })

/-- Undo one patcher: put the recorded prior overlay entry back. -/
def restore1 (mem : Memory) (pr : Loc × Option PyVal) : Memory :=
  fun l2 => if l2 = pr.1 then pr.2 else mem l2

/-- `ReversePatch.__exit__`: undo every applied patcher in reverse
application order (`for patcher in reversed(self._patchers)`), regardless
of any in-flight exception (which the patchers' own exits ignore and which
is never suppressed). -/
def rpExit (s : Sess) : Memory :=
  s.patchers.reverse.foldl restore1 s.mem

-- Configuration of one session: the constructor arguments plus what the
-- engine introspects from the target callable and the module.

/-- The inputs of one `ReversePatch(func, include_set, exclude_set)`
session: the module's `__dict__` snapshot, the target callable, its
`__qualname__` split on dots, and the caller-supplied override sets
(Python sets determinized as duplicate-free lists). -/
structure RPConfig where
  dict : List (String × PyVal)
  func : PyVal
  funcQualname : List String
  includeSet : List String
  excludeSet : List ExcludeEntry

/-- The exclusion partitions `_init_exclusions` derives (identifier
excludes, dotted-path excludes and their first segments, object-derived
paths and their first segments). -/
structure ExclSets where
  ids : List String
  paths : List String
  firstPath : List String
  objPaths : List String
  firstObjPath : List String
  deriving DecidableEq, Repr

/-- `_get_exclude_object_path`: read `__qualname__` and raise `ValueError`
when it is missing or falsy (the empty string). -/
def getExcludeObjectPath (qualname : Option String) : Except PyErr String :=
  match qualname with
  | some q =>
    if q = "" then .error (.valueError "exclude_object does not have attribute `__qualname__") else .ok q
  | none => .error (.valueError "exclude_object does not have attribute `__qualname__")

/-- Resolve each object exclude to its `__qualname__` path, raising on the
first object that lacks one (the set comprehension in `_init_exclusions`).
-/
def mapExcludeObjectPaths : List (Option String) → Except PyErr (List String)
  | [] => .ok []
  | q :: t =>
    match getExcludeObjectPath q with
    | .error e => .error e
    | .ok p =>
      match mapExcludeObjectPaths t with
      | .error e => .error e
      | .ok ps => .ok (p :: ps)

/-- `_init_exclusions`: partition the exclude set into identifier excludes
(no dot), path excludes (with a dot) and object excludes, resolve each
object to its `__qualname__` path (raising when one is missing), and record
the first path segment of every path.  Python's sets are determinized as
lists deduplicated in order. -/
def initExclusions (excl : List ExcludeEntry) : Except PyErr ExclSets := do
  let strs := excl.filterMap (fun e => match e with | .str s => some s | .obj _ => none)
  let objs := excl.filterMap (fun e => match e with | .obj q => some q | .str _ => none)
  let objPaths ← mapExcludeObjectPaths objs
  .ok { ids := (strs.filter (fun s => ¬ hasDot s)).dedup
        paths := (strs.filter hasDot).dedup
        firstPath := ((strs.filter hasDot).map (fun s => (splitDot s).headD "")).dedup
        objPaths := objPaths.dedup
        firstObjPath := (objPaths.map (fun s => (splitDot s).headD "")).dedup }

/-- The state established by `ReversePatch.__init__`: the effective include
set (`{'id'} | include_set`) and the derived exclusion partitions.  (When
`exclude_set` is empty the source skips `_init_exclusions`; running it on
the empty list yields the same empty partitions.) -/
structure RPState where
  includeEff : List String
  ex : ExclSets

/-- `ReversePatch.__init__`: merge the default include set `{'id'}` with
the caller's and derive the exclusion partitions; the only failure is the
missing-`__qualname__` configuration error. -/
def rpInit (cfg : RPConfig) : Except PyErr RPState := do
  let ex ← initExclusions cfg.excludeSet
  .ok { includeEff := ("id" :: cfg.includeSet).dedup, ex := ex }

/-- Repeated `getattr` along a list of attribute names (`none` raises). -/
def walkAttrs (env : PatchEnv) (mem : Memory) (obj : PyVal) (segs : List String) :
    Except PyErr PyVal :=
  segs.foldlM
    (fun o seg =>
      match getAttr env mem o seg with
      | some w => .ok w
      | none => .error (.attributeError seg)) obj

/-- `_getattr_by_path`: `getattr` along the dot-separated path, starting at
`obj`, under the current overlay. -/
def getattrByPath (env : PatchEnv) (mem : Memory) (obj : PyVal) (path : String) :
    Except PyErr PyVal :=
  walkAttrs env mem obj (splitDot path)

/-- `get_patching_list`: walk `func.__qualname__` minus its final segment
from the module mock by attribute access, collecting the chain of mocks
(outermost enclosing class first). -/
def getPatchingList (env : PatchEnv) (mem : Memory) (qualname : List String) :
    Except PyErr (List PyVal) := do
  let r ← qualname.dropLast.foldlM
    (fun (acc : List PyVal × PyVal) n =>
      match getAttr env mem acc.2 n with
      | some cur => Except.ok (acc.1 ++ [cur], cur)
      | none => Except.error (.attributeError n)) (([] : List PyVal), PyVal.mock 0 [])
  .ok r.1

/-- `_get_args_and_callable`: build the `ArgsKwargs` for `func`.  For a
class method (`inspect.ismethod`), expose `func.__func__` and, when the
chain is non-empty, first bind `cls` to the chain's last mock, then give
every declared parameter a fresh mock.  Otherwise bind a parameter named
`self` to the chain's last mock when the chain is non-empty, and every
other parameter a fresh mock. -/
def gaacFreshStep (acc : ArgsKwargs × Sess) (pn : String) : ArgsKwargs × Sess :=
  (acc.1.addArgument pn (freshMock acc.2).1, (freshMock acc.2).2)

/-- The declared-parameter loop of the non-classmethod branch of
`_get_args_and_callable`: a parameter literally named `self` is bound to the
chain's last mock when the chain is non-empty; every other parameter gets a
fresh `MagicMock()`. -/
def gaacSelfStep (plist : List PyVal) (acc : ArgsKwargs × Sess) (pn : String) :
    ArgsKwargs × Sess :=
  match plist.getLast? with
  | some last =>
    if pn = "self" then (acc.1.addArgument pn last, acc.2)
    else gaacFreshStep acc pn
  | none => gaacFreshStep acc pn

def getArgsAndCallable (env : PatchEnv) (func : PyVal) (plist : List PyVal) (s : Sess) :
    CallableDTO × Sess :=
  if env.ismethod func then
    let start : ArgsKwargs × Sess :=
      match plist.getLast? with
      | some last => (ArgsKwargs.empty.addArgument "cls" last, s)
      | none => (ArgsKwargs.empty, s)
    let r := (env.signatureParams func).foldl gaacFreshStep start
    ({ args := r.1, c := env.dunderFunc func }, r.2)
  else
    let r := (env.signatureParams func).foldl (gaacSelfStep plist) (ArgsKwargs.empty, s)
    ({ args := r.1, c := func }, r.2)

/-- `len(patching_list) and identifier == getattr(patching_list[0], '_mock_name')`. -/
def mockNameMatches (plist : List PyVal) (n : String) : Bool :=
  match plist.head? with
  | some m0 => mockName m0 == some n
  | none => false

/-- One iteration of `_patch_module_identifiers`: skip excluded
identifiers, dunder names not explicitly included, the target callable
itself, values that are already mocks, exception classes, and the
identifier naming the chain's outermost mock; otherwise move the module
mock's corresponding attribute into the real module. -/
def moduleIdentifierStep (env : PatchEnv) (cfg : RPConfig) (ex : ExclSets)
    (incEff : List String) (plist : List PyVal) (s : Sess) (nv : String × PyVal) : Sess :=
  if nv.1 ∈ ex.ids ++ ex.firstPath ++ ex.firstObjPath then s
  else if strStartsWith nv.1 "__" ∧ nv.1 ∉ incEff then s
  else if nv.2 = cfg.func then s
  else if isMockVal env nv.2 then s
  else if isExcVal env nv.2 then s
  else if mockNameMatches plist nv.1 then s
  else applyPatch s (.moduleAttr nv.1) (getAttrOnMock s.mem 0 [] nv.1)

/-- `_patch_module_identifiers`: iterate the module `__dict__` snapshot. -/
def patchModuleIdentifiers (env : PatchEnv) (cfg : RPConfig) (ex : ExclSets)
    (incEff : List String) (plist : List PyVal) (s : Sess) : Sess :=
  cfg.dict.foldl (moduleIdentifierStep env cfg ex incEff plist) s

/-- One iteration of `_patch_include_set`: walk the dotted path's parents
from the real module, skip when the leaf is already a mock, otherwise patch
a fresh mock over the leaf (`create=True`). -/
def includeStep (env : PatchEnv) (s : Sess) (identifierPath : String) : Except PyErr Sess :=
  match walkAttrs env s.mem .module (splitDot identifierPath).dropLast with
  | .error e => .error e
  | .ok parent =>
    if (match getAttr env s.mem parent ((splitDot identifierPath).getLastD identifierPath) with
        | some w => isMockVal env w
        | none => false) then
      .ok s
    else
      .ok (applyPatch (freshMock s).2
        (attrLoc parent ((splitDot identifierPath).getLastD identifierPath))
        (freshMock s).1)

/-- `_patch_include_set`: iterate the include set minus all excludes
(identifier, path and object-path excludes take priority). -/
def patchIncludeSet (env : PatchEnv) (ex : ExclSets) (incEff : List String) (s : Sess) :
    Except PyErr Sess :=
  (incEff.filter (fun p => p ∉ ex.ids ++ ex.paths ++ ex.objPaths)).foldlM (includeStep env) s

/-- The inner loop of the exclusion phase of `__enter__`
(`for idx, exclude_identifier in enumerate(exclude_identifiers)`): walk the
path on the shadow side, skipping segments that coincide with the target's
own chain, patching diverging intermediate segments with their current
shadow value, and at the final segment restoring the original object — or,
when the leaf is `__init__`, installing the original under `m__init__` on
the shadow parent and synthesizing a separate exclusion `CallableDTO`
addressable by both the object and the dotted path. -/
def excludeWalk (env : PatchEnv) (plist : List PyVal) (excludeObject : PyVal)
    (excludePath : String) (nTotal : Nat) :
    Nat → PyVal → List String → Sess × List (ExclKey × CallableDTO) →
    Except PyErr (Sess × List (ExclKey × CallableDTO))
  | _, _, [], acc => .ok acc
  | idx, parent, excId :: rest, (s, excls) =>
    match getAttr env s.mem parent excId with
    | none => .error (.attributeError excId)
    | some current =>
      if plist.length > idx ∧ plist.get? idx = some current then
        excludeWalk env plist excludeObject excludePath nTotal (idx + 1) current rest (s, excls)
      else if idx < nTotal - 1 then
        excludeWalk env plist excludeObject excludePath nTotal (idx + 1) current rest
          (applyPatch s (attrLoc parent excId) current, excls)
      else if excId = "__init__" then
        excludeWalk env plist excludeObject excludePath nTotal (idx + 1) current rest
          (applyPatch (getArgsAndCallable env excludeObject [parent] s).2
             (attrLoc parent ("m" ++ excId)) excludeObject,
           dictSet
             (dictSet excls (.byObj excludeObject)
               (getArgsAndCallable env excludeObject [parent] s).1)
             (.byPath excludePath)
             (getArgsAndCallable env excludeObject [parent] s).1)
      else
        excludeWalk env plist excludeObject excludePath nTotal (idx + 1) current rest
          (applyPatch s (attrLoc parent excId) excludeObject, excls)

/-- One iteration of the exclusion phase of `__enter__` for one exclude
path: resolve the original object from the real module, raise `ValueError`
when the path has fewer than two segments, and (only when the target has a
non-empty chain) run the shadow walk. -/
def excludePathStep (env : PatchEnv) (plist : List PyVal)
    (acc : Sess × List (ExclKey × CallableDTO)) (excludePath : String) :
    Except PyErr (Sess × List (ExclKey × CallableDTO)) :=
  match getattrByPath env acc.1.mem .module excludePath with
  | .error e => .error e
  | .ok excludeObject =>
    if (splitDot excludePath).length < 2 then
      .error (.valueError "len(exclude_identifiers)<2")
    else if plist.length ≠ 0 then
      excludeWalk env plist excludeObject excludePath (splitDot excludePath).length
        0 (.mock 0 []) (splitDot excludePath) acc
    else .ok acc

/-- `ReversePatch.__enter__`: patch the fake parent with the module mock,
build the chain and the argument container, run the module pass, the
include pass, and the exclusion phase, and return the result bundle with
the session state. -/
def sess0 (cfg : RPConfig) : Sess :=
  { mem := initMemory cfg.dict, patchers := [], counter := 0 }

/-- The session state right after the first patcher
(`patch.object(fake_parent_module, 'tm', autospec=True)`) was applied. -/
def sess1 (cfg : RPConfig) : Sess :=
  applyPatch (sess0 cfg) .fakeTm (.mock 0 [])

/-- The union `_exclude_path_set | _exclude_object_path_set` iterated by the
exclusion phase. -/
def allExcludePaths (ex : ExclSets) : List String :=
  ex.paths ++ ex.objPaths.filter (fun p => p ∉ ex.paths)

def rpEnter (env : PatchEnv) (cfg : RPConfig) (st : RPState) : Except PyErr (RPDto × Sess) :=
  match getPatchingList env (sess1 cfg).mem cfg.funcQualname with
  | .error e => .error e
  | .ok plist =>
    match patchIncludeSet env st.ex st.includeEff
        (patchModuleIdentifiers env cfg st.ex st.includeEff plist
          (getArgsAndCallable env cfg.func plist (sess1 cfg)).2) with
    | .error e => .error e
    | .ok s4 =>
      match (allExcludePaths st.ex).foldlM (excludePathStep env plist) (s4, []) with
      | .error e => .error e
      | .ok (s5, excls) =>
        .ok ({ args := (getArgsAndCallable env cfg.func plist (sess1 cfg)).1.args
               c := (getArgsAndCallable env cfg.func plist (sess1 cfg)).1.c
               exclusions := excls }, s5)

/-- One full session acquisition, `ReversePatch(func, inc, exc).__enter__()`:
construction followed by entry. -/
def rpSession (env : PatchEnv) (cfg : RPConfig) : Except PyErr (RPDto × Sess) :=
  match rpInit cfg with
  | .error e => .error e
  | .ok st => rpEnter env cfg st

/-- The body of `Rc.__enter__` after the base entry: call `rp.c(*rp.args)`;
on an exception, run `__exit__` and re-raise it unchanged; otherwise return
the `ResultReversePatchDTO` (no teardown yet).  The second component is the
memory after `Rc.__enter__` returns or raises. -/
def rcEnterFrom (dto : RPDto) (s : Sess)
    (call : PyVal → List PyVal → Except PyErr PyVal) :
    Except PyErr RcDto × Memory :=
  match call dto.c dto.args.values with
  | .error e => (.error e, rpExit s)
  | .ok r => (.ok { r := r, args := dto.args, c := dto.c, exclusions := dto.exclusions }, s.mem)

/-- A full `Rc` session entry: base construction and entry, then the
auto-invoke step. -/
def rcSession (env : PatchEnv) (cfg : RPConfig)
    (call : PyVal → List PyVal → Except PyErr PyVal) :
    Except PyErr (Except PyErr RcDto × Memory) :=
  (rpSession env cfg).map (fun p => rcEnterFrom p.1 p.2 call)

-- Round-trip machinery: the applied patchers always form an undo log that
-- takes the current overlay back to the session's initial memory.

/-- The teardown invariant: running `__exit__` now would restore `mem0`. -/
def UndoInv (s : Sess) (mem0 : Memory) : Prop := ∀ l, rpExit s l = mem0 l

theorem foldl_restore1_ext (ps : List (Loc × Option PyVal)) :
    ∀ {m1 m2 : Memory}, (∀ l, m1 l = m2 l) →
      ∀ l, (ps.foldl restore1 m1) l = (ps.foldl restore1 m2) l := by
  induction ps with
  | nil => intro m1 m2 h l; exact h l
  | cons pr t ih =>
    intro m1 m2 h l
    refine ih (fun l2 => ?_) l
    unfold restore1
    by_cases hl : l2 = pr.1 <;> simp [hl, h l2]

theorem undoInv_applyPatch {s : Sess} {mem0 : Memory} (h : UndoInv s mem0)
    (l : Loc) (v : PyVal) : UndoInv (applyPatch s l v) mem0 := by
  intro l2
  show ((applyPatch s l v).patchers.reverse.foldl restore1 (applyPatch s l v).mem) l2 = mem0 l2
  unfold applyPatch
  simp only [List.reverse_append, List.reverse_cons, List.reverse_nil, List.nil_append,
    List.cons_append, List.foldl_cons]
  refine Eq.trans (foldl_restore1_ext _ (fun l3 => ?_) l2) (h l2)
  unfold restore1
  by_cases hl : l3 = l <;> simp [hl]

theorem undoInv_of_fields {s s' : Sess} {mem0 : Memory}
    (hm : s'.mem = s.mem) (hp : s'.patchers = s.patchers) (h : UndoInv s mem0) :
    UndoInv s' mem0 := by
  intro l
  show (s'.patchers.reverse.foldl restore1 s'.mem) l = mem0 l
  rw [hm, hp]
  exact h l

theorem undoInv_sess0 (cfg : RPConfig) : UndoInv (sess0 cfg) (initMemory cfg.dict) :=
  fun _ => rfl

/-- `freshMock` changes only the counter. -/
theorem freshMock_fields (s : Sess) :
    (freshMock s).2.mem = s.mem ∧ (freshMock s).2.patchers = s.patchers := ⟨rfl, rfl⟩

theorem foldl_gaacFreshStep_fields (ps : List String) :
    ∀ (acc : ArgsKwargs × Sess),
      ((ps.foldl gaacFreshStep acc).2.mem = acc.2.mem ∧
       (ps.foldl gaacFreshStep acc).2.patchers = acc.2.patchers) := by
  induction ps with
  | nil => intro acc; exact ⟨rfl, rfl⟩
  | cons p t ih =>
    intro acc
    simp only [List.foldl_cons]
    exact ⟨(ih (gaacFreshStep acc p)).1, (ih (gaacFreshStep acc p)).2⟩

theorem foldl_gaacSelfStep_fields (plist : List PyVal) (ps : List String) :
    ∀ (acc : ArgsKwargs × Sess),
      ((ps.foldl (gaacSelfStep plist) acc).2.mem = acc.2.mem ∧
       (ps.foldl (gaacSelfStep plist) acc).2.patchers = acc.2.patchers) := by
  induction ps with
  | nil => intro acc; exact ⟨rfl, rfl⟩
  | cons p t ih =>
    intro acc
    have hstep : (gaacSelfStep plist acc p).2.mem = acc.2.mem ∧
        (gaacSelfStep plist acc p).2.patchers = acc.2.patchers := by
      unfold gaacSelfStep
      cases plist.getLast? with
      | none => exact ⟨rfl, rfl⟩
      | some last =>
        by_cases hp : p = "self" <;> simp [hp, gaacFreshStep, freshMock]
    simp only [List.foldl_cons]
    exact ⟨Eq.trans (ih (gaacSelfStep plist acc p)).1 hstep.1,
           Eq.trans (ih (gaacSelfStep plist acc p)).2 hstep.2⟩

/-- `_get_args_and_callable` creates mocks but applies no patcher: the
memory and the patcher list are untouched. -/
theorem getArgsAndCallable_fields (env : PatchEnv) (func : PyVal) (plist : List PyVal)
    (s : Sess) :
    (getArgsAndCallable env func plist s).2.mem = s.mem ∧
    (getArgsAndCallable env func plist s).2.patchers = s.patchers := by
  unfold getArgsAndCallable
  split
  · cases plist.getLast? with
    | none => exact foldl_gaacFreshStep_fields (env.signatureParams func) _
    | some last => exact foldl_gaacFreshStep_fields (env.signatureParams func) _
  · exact foldl_gaacSelfStep_fields plist (env.signatureParams func) _

theorem undoInv_moduleIdentifierStep (env : PatchEnv) (cfg : RPConfig) (ex : ExclSets)
    (incEff : List String) (plist : List PyVal) {s : Sess} {mem0 : Memory}
    (h : UndoInv s mem0) (nv : String × PyVal) :
    UndoInv (moduleIdentifierStep env cfg ex incEff plist s nv) mem0 := by
  unfold moduleIdentifierStep
  repeat' split
  any_goals exact h
  exact undoInv_applyPatch h _ _

theorem undoInv_patchModuleIdentifiers (env : PatchEnv) (cfg : RPConfig) (ex : ExclSets)
    (incEff : List String) (plist : List PyVal) {s : Sess} {mem0 : Memory}
    (h : UndoInv s mem0) :
    UndoInv (patchModuleIdentifiers env cfg ex incEff plist s) mem0 := by
  unfold patchModuleIdentifiers
  generalize cfg.dict = items
  induction items generalizing s with
  | nil => exact h
  | cons nv t ih =>
    exact ih (undoInv_moduleIdentifierStep env cfg ex incEff plist h nv)

theorem undoInv_includeStep (env : PatchEnv) {s s' : Sess} {mem0 : Memory}
    (p : String) (hstep : includeStep env s p = .ok s') (h : UndoInv s mem0) :
    UndoInv s' mem0 := by
  unfold includeStep at hstep
  split at hstep
  · cases hstep
  · split at hstep
    · cases hstep; exact h
    · cases hstep
      exact undoInv_applyPatch (undoInv_of_fields (freshMock_fields s).1
        (freshMock_fields s).2 h) _ _

theorem undoInv_patchIncludeSet (env : PatchEnv) (ex : ExclSets) (incEff : List String)
    {s s' : Sess} {mem0 : Memory}
    (hstep : patchIncludeSet env ex incEff s = .ok s') (h : UndoInv s mem0) :
    UndoInv s' mem0 := by
  unfold patchIncludeSet at hstep
  generalize hl : incEff.filter (fun p => p ∉ ex.ids ++ ex.paths ++ ex.objPaths) = items at hstep
  clear hl
  induction items generalizing s with
  | nil =>
    simp only [List.foldlM_nil] at hstep
    cases hstep
    exact h
  | cons p t ih =>
    simp only [List.foldlM_cons] at hstep
    cases hs1 : includeStep env s p with
    | error e =>
      rw [hs1] at hstep
      exact (Except.noConfusion hstep)
    | ok s1 =>
      rw [hs1] at hstep
      exact ih (undoInv_includeStep env p hs1 h) hstep

theorem undoInv_excludeWalk (env : PatchEnv) (plist : List PyVal) (xo : PyVal)
    (xp : String) (nT : Nat) :
    ∀ (rest : List String) (idx : Nat) (parent : PyVal)
      (s : Sess) (excls : List (ExclKey × CallableDTO))
      (s' : Sess) (excls' : List (ExclKey × CallableDTO)) {mem0 : Memory},
      excludeWalk env plist xo xp nT idx parent rest (s, excls) = .ok (s', excls') →
      UndoInv s mem0 → UndoInv s' mem0 := by
  intro rest
  induction rest with
  | nil =>
    intro idx parent s excls s' excls' mem0 hw h
    unfold excludeWalk at hw
    cases hw
    exact h
  | cons excId t ih =>
    intro idx parent s excls s' excls' mem0 hw h
    unfold excludeWalk at hw
    split at hw
    · exact (Except.noConfusion hw)
    · split at hw
      · exact ih _ _ _ _ _ _ hw h
      · split at hw
        · exact ih _ _ _ _ _ _ hw (undoInv_applyPatch h _ _)
        · split at hw
          · refine ih _ _ _ _ _ _ hw ?_
            refine undoInv_applyPatch ?_ _ _
            exact undoInv_of_fields
              (getArgsAndCallable_fields env xo [parent] s).1
              (getArgsAndCallable_fields env xo [parent] s).2 h
          · exact ih _ _ _ _ _ _ hw (undoInv_applyPatch h _ _)

theorem undoInv_excludePathStep (env : PatchEnv) (plist : List PyVal)
    {acc : Sess × List (ExclKey × CallableDTO)} {xp : String}
    {out : Sess × List (ExclKey × CallableDTO)} {mem0 : Memory}
    (hstep : excludePathStep env plist acc xp = .ok out) (h : UndoInv acc.1 mem0) :
    UndoInv out.1 mem0 := by
  unfold excludePathStep at hstep
  split at hstep
  · exact (Except.noConfusion hstep)
  · split at hstep
    · exact (Except.noConfusion hstep)
    · split at hstep
      · rcases acc with ⟨s, excls⟩
        rcases out with ⟨s', excls'⟩
        exact undoInv_excludeWalk env plist _ xp _ _ _ _ _ _ _ _ hstep h
      · cases hstep
        exact h

theorem undoInv_excludeFold (env : PatchEnv) (plist : List PyVal) :
    ∀ (paths : List String) (acc : Sess × List (ExclKey × CallableDTO))
      (out : Sess × List (ExclKey × CallableDTO)) {mem0 : Memory},
      paths.foldlM (excludePathStep env plist) acc = .ok out →
      UndoInv acc.1 mem0 → UndoInv out.1 mem0 := by
  intro paths
  induction paths with
  | nil =>
    intro acc out mem0 hw h
    simp only [List.foldlM_nil] at hw
    cases hw
    exact h
  | cons xp t ih =>
    intro acc out mem0 hw h
    simp only [List.foldlM_cons] at hw
    cases hs1 : excludePathStep env plist acc xp with
    | error e =>
      rw [hs1] at hw
      exact (Except.noConfusion hw)
    | ok acc1 =>
      rw [hs1] at hw
      exact ih _ _ hw (undoInv_excludePathStep env plist hs1 h)

/-- The round-trip law for a whole session: whenever construction and entry
succeed, running `__exit__` restores every location to its pre-entry value
(the undo log undoes the fake-module patch, the module pass, the include
pass and the exclusion phase, in exact reverse order). -/
theorem rpSession_undo (env : PatchEnv) (cfg : RPConfig) {dto : RPDto} {s : Sess}
    (h : rpSession env cfg = .ok (dto, s)) :
    ∀ l, rpExit s l = initMemory cfg.dict l := by
  unfold rpSession at h
  split at h
  · exact (Except.noConfusion h)
  · rename_i st hst
    unfold rpEnter at h
    split at h
    · exact (Except.noConfusion h)
    · rename_i plist hpl
      split at h
      · exact (Except.noConfusion h)
      · rename_i s4 hs4
        split at h
        · exact (Except.noConfusion h)
        · rename_i s5 excls hp5
          cases h
          have h1 : UndoInv (sess1 cfg) (initMemory cfg.dict) :=
            undoInv_applyPatch (undoInv_sess0 cfg) _ _
          have h2 : UndoInv (getArgsAndCallable env cfg.func plist (sess1 cfg)).2
              (initMemory cfg.dict) :=
            undoInv_of_fields (getArgsAndCallable_fields env cfg.func plist (sess1 cfg)).1
              (getArgsAndCallable_fields env cfg.func plist (sess1 cfg)).2 h1
          have h3 := undoInv_patchModuleIdentifiers env cfg st.ex st.includeEff plist h2
          have h4 := undoInv_patchIncludeSet env st.ex st.includeEff hs4 h3
          exact undoInv_excludeFold env plist _ (s4, []) (s, excls) hp5 h4

-- A small concrete witness world, mirroring the shape of
-- `reverse_patch_data/testing_fixtures.py` (a module constant, a class
-- `InitCase` with `__init__` and `use_attrs_inited_in__init`, an exception
-- class).

def envW : PatchEnv :=
  { realGet := fun p n =>
      if p = ["InitCase"] ∧ n = "__init__" then some (.real ["InitCase", "__init__"])
      else if p = ["InitCase"] ∧ n = "use_attrs_inited_in__init" then
        some (.real ["InitCase", "use_attrs_inited_in__init"])
      else none
    isExcClass := fun p => p = ["SomeException"]
    isMockInst := fun _ => false
    signatureParams := fun f =>
      if f = .real ["InitCase", "__init__"] then ["self", "x", "y"]
      else if f = .real ["InitCase", "use_attrs_inited_in__init"] then ["self"]
      else []
    ismethod := fun _ => false
    dunderFunc := fun f => f }

def cfgW : RPConfig :=
  { dict := [("MODULE_CONST", .real ["MODULE_CONST"]), ("InitCase", .real ["InitCase"]),
             ("SomeException", .real ["SomeException"]), ("__name__", .real ["__name__"])]
    func := .real ["InitCase", "use_attrs_inited_in__init"]
    funcQualname := ["InitCase", "use_attrs_inited_in__init"]
    includeSet := []
    excludeSet := [.str "InitCase.__init__"] }

/-- C1.  For every session of `ReversePatch` that enters successfully, exit
reverses every recorded substitution in exact reverse application order, so
after `__exit__` every attribute location touched during entry is equal to
its pre-entry value (round-trip law); the exit path is the same whether it
is reached by normal completion or by a propagating exception, which
`__exit__` forwards to the patchers and never suppresses. -/
theorem c1_teardown_roundtrip (env : PatchEnv) (cfg : RPConfig) (dto : RPDto) (s : Sess)
    (h : rpSession env cfg = .ok (dto, s)) :
    ∀ l, rpExit s l = initMemory cfg.dict l :=
  rpSession_undo env cfg h

theorem c1_teardown_roundtrip_witness :
    (rpSession envW cfgW).toOption.map
        (fun p => (rpExit p.2 (Loc.moduleAttr "MODULE_CONST"),
                   rpExit p.2 (Loc.moduleAttr "id"),
                   rpExit p.2 (Loc.mockAttr 0 ["InitCase"] "m__init__"))) =
      some (some (PyVal.real ["MODULE_CONST"]), none, none) := by
  cases hh : rpSession envW cfgW with
  | error e =>
    have hsome : (rpSession envW cfgW).toOption.isSome = true := by decide
    rw [hh] at hsome
    simp [Except.toOption] at hsome
  | ok p =>
    have h2 := c1_teardown_roundtrip envW cfgW p.1 p.2 (by rw [hh])
    simp only [Except.toOption, Option.map]
    rw [h2 (Loc.moduleAttr "MODULE_CONST"), h2 (Loc.moduleAttr "id"),
        h2 (Loc.mockAttr 0 ["InitCase"] "m__init__")]
    rfl

-- `ArgsKwargs` addressing: building a container by `add_argument` with
-- distinct names makes name access agree with index access, and iteration
-- yields the values in insertion order.

/-- Build an `ArgsKwargs` by `add_argument` over (name, value) pairs in
order. -/
def ArgsKwargs.ofPairs (pairs : List (String × PyVal)) : ArgsKwargs :=
  pairs.foldl (fun a p => a.addArgument p.1 p.2) ArgsKwargs.empty

/-- `(n₀, k) :: (n₁, k+1) :: ...`: the index map generated for a run of
fresh names starting at index `k`. -/
def idxFrom (k : Nat) : List String → List (String × Nat)
  | [] => []
  | n :: t => (n, k) :: idxFrom (k + 1) t

theorem foldAdd_closed :
    ∀ (pairs : List (String × PyVal)) (ak : ArgsKwargs),
      ak.indexMap.length = ak.values.length →
      (∀ nv ∈ pairs, ∀ e ∈ ak.indexMap, e.1 ≠ nv.1) →
      (pairs.map Prod.fst).Nodup →
      ((pairs.foldl (fun a p => a.addArgument p.1 p.2) ak).values
          = ak.values ++ pairs.map Prod.snd ∧
       (pairs.foldl (fun a p => a.addArgument p.1 p.2) ak).indexMap
          = ak.indexMap ++ idxFrom ak.indexMap.length (pairs.map Prod.fst)) := by
  intro pairs
  induction pairs with
  | nil => intro ak _ _ _; simp [idxFrom]
  | cons nv t ih =>
    intro ak hlen hdisj hnodup
    have hfind : ak.indexMap.find? (fun p => p.1 = nv.1) = none := by
      rw [List.find?_eq_none]
      intro e he
      simpa using hdisj nv (by simp) e he
    have hadd : ak.addArgument nv.1 nv.2 =
        { values := ak.values ++ [nv.2], indexMap := ak.indexMap ++ [(nv.1, ak.indexMap.length)] } := by
      unfold ArgsKwargs.addArgument
      rw [hfind]
      rfl
    have hlen2 : (ak.addArgument nv.1 nv.2).indexMap.length =
        (ak.addArgument nv.1 nv.2).values.length := by
      rw [hadd]
      simp [hlen]
    have hdisj2 : ∀ mv ∈ t, ∀ e ∈ (ak.addArgument nv.1 nv.2).indexMap, e.1 ≠ mv.1 := by
      intro mv hmv e he
      rw [hadd] at he
      simp only [List.mem_append, List.mem_singleton] at he
      rcases he with he | he
      · exact hdisj mv (by simp [hmv]) e he
      · subst he
        intro hcon
        simp only [List.map_cons, List.nodup_cons] at hnodup
        exact hnodup.1 (hcon ▸ List.mem_map_of_mem Prod.fst hmv)
    have hnodup2 : (t.map Prod.fst).Nodup := by
      simp only [List.map_cons, List.nodup_cons] at hnodup
      exact hnodup.2
    have hrec := ih (ak.addArgument nv.1 nv.2) hlen2 hdisj2 hnodup2
    simp only [List.foldl_cons]
    constructor
    · rw [hrec.1, hadd]
      simp
    · rw [hrec.2, hadd]
      simp only [List.map_cons]
      rw [List.append_assoc]
      congr 1
      simp only [List.singleton_append, List.length_append, List.length_cons,
        List.length_nil]
      rfl

theorem ofPairs_closed (pairs : List (String × PyVal))
    (hnodup : (pairs.map Prod.fst).Nodup) :
    (ArgsKwargs.ofPairs pairs).values = pairs.map Prod.snd ∧
    (ArgsKwargs.ofPairs pairs).indexMap = idxFrom 0 (pairs.map Prod.fst) := by
  have h := foldAdd_closed pairs ArgsKwargs.empty rfl (by intro nv _ e he; cases he) hnodup
  exact ⟨by simpa [ArgsKwargs.ofPairs, ArgsKwargs.empty] using h.1,
         by simpa [ArgsKwargs.ofPairs, ArgsKwargs.empty] using h.2⟩

theorem idxFrom_find? (names : List String) :
    ∀ (k i : Nat) (n : String), names.Nodup → names.get? i = some n →
      (idxFrom k names).find? (fun p => p.1 = n) = some (n, k + i) := by
  induction names with
  | nil => intro k i n _ h; cases h
  | cons m t ih =>
    intro k i n hnodup h
    cases i with
    | zero =>
      cases h
      unfold idxFrom
      rw [List.find?_cons_of_pos _ (by simp)]
      simp
    | succ j =>
      simp only [List.get?_cons_succ] at h
      have hne : m ≠ n := by
        intro hcon
        subst hcon
        exact (List.nodup_cons.mp hnodup).1 (List.get?_mem h)
      unfold idxFrom
      rw [List.find?_cons_of_neg _ (by simp [hne])]
      have hrec := ih (k + 1) j n (List.nodup_cons.mp hnodup).2 h
      rw [hrec]
      have harith : k + 1 + j = k + (j + 1) := by omega
      rw [harith]

/-- C6 (amended).  For an argument collection built by `add_argument` with
distinct names in declaration order, iterating the collection (its list
contents) yields exactly the values in declaration order, and access by
index `i` agrees with Python attribute access by the name of the `i`-th
parameter provided that name is not shadowed by a `list`/class attribute;
for a shadowed name (such as `index` or `count`) attribute access instead
returns the built-in class attribute, never the stored value. -/
theorem c6_argument_addressing (pairs : List (String × PyVal))
    (hnodup : (pairs.map Prod.fst).Nodup) :
    (ArgsKwargs.ofPairs pairs).values = pairs.map Prod.snd ∧
    ∀ i nv, pairs.get? i = some nv →
      ((ArgsKwargs.ofPairs pairs).values.get? i = some nv.2 ∧
       (nv.1 ∉ ArgsKwargs.shadowedNames →
         (ArgsKwargs.ofPairs pairs).attr nv.1 = .value nv.2) ∧
       (nv.1 ∈ ArgsKwargs.shadowedNames →
         (ArgsKwargs.ofPairs pairs).attr nv.1 = .classAttr nv.1)) := by
  have h := ofPairs_closed pairs hnodup
  refine ⟨h.1, ?_⟩
  intro i nv hget
  have hv : (ArgsKwargs.ofPairs pairs).values.get? i = some nv.2 := by
    rw [h.1, List.get?_map, hget]
    rfl
  have hname : (pairs.map Prod.fst).get? i = some nv.1 := by
    rw [List.get?_map, hget]
    rfl
  refine ⟨hv, ?_, ?_⟩
  · intro hns
    unfold ArgsKwargs.attr
    rw [if_neg hns, h.2, idxFrom_find? (pairs.map Prod.fst) 0 i nv.1 hnodup hname]
    show (match (ArgsKwargs.ofPairs pairs).values.get? (0 + i) with
      | some v => AttrResult.value v
      | none => AttrResult.indexErr) = AttrResult.value nv.2
    rw [Nat.zero_add, hv]
  · intro hs
    unfold ArgsKwargs.attr
    rw [if_pos hs]

/-- C6 counterexample to the original statement: for the perfectly
ordinary distinct parameter names `self, index`, declaration-order
construction stores the second value at position 1, yet attribute access
by the name `index` returns the built-in `list.index` method (normal
attribute lookup shadows `__getattr__`), so access by index and access by
the `i`-th parameter's name disagree. -/
theorem c6_counterexample :
    ([("self", PyVal.mock 1 []), ("index", PyVal.mock 2 [])].map Prod.fst).Nodup ∧
    (ArgsKwargs.ofPairs [("self", PyVal.mock 1 []), ("index", PyVal.mock 2 [])]).values.get? 1
      = some (PyVal.mock 2 []) ∧
    (ArgsKwargs.ofPairs [("self", PyVal.mock 1 []), ("index", PyVal.mock 2 [])]).attr "index"
      = .classAttr "index" ∧
    (ArgsKwargs.ofPairs [("self", PyVal.mock 1 []), ("index", PyVal.mock 2 [])]).attr "index"
      ≠ .value (PyVal.mock 2 []) := by
  exact ⟨by decide, by decide, by decide, by decide⟩

theorem c6_argument_addressing_witness :
    ([("cls", PyVal.mock 1 []), ("self", PyVal.mock 2 []),
      ("foo", PyVal.mock 3 []), ("bar", PyVal.mock 4 [])].map Prod.fst).Nodup ∧
    (ArgsKwargs.ofPairs [("cls", PyVal.mock 1 []), ("self", PyVal.mock 2 []),
      ("foo", PyVal.mock 3 []), ("bar", PyVal.mock 4 [])]).values
      = [PyVal.mock 1 [], PyVal.mock 2 [], PyVal.mock 3 [], PyVal.mock 4 []] ∧
    (ArgsKwargs.ofPairs [("cls", PyVal.mock 1 []), ("self", PyVal.mock 2 []),
      ("foo", PyVal.mock 3 []), ("bar", PyVal.mock 4 [])]).values.get? 2
      = some (PyVal.mock 3 []) ∧
    ("foo" ∉ ArgsKwargs.shadowedNames) ∧
    (ArgsKwargs.ofPairs [("cls", PyVal.mock 1 []), ("self", PyVal.mock 2 []),
      ("foo", PyVal.mock 3 []), ("bar", PyVal.mock 4 [])]).attr "foo"
      = .value (PyVal.mock 3 []) := by
  have h := c6_argument_addressing
    [("cls", PyVal.mock 1 []), ("self", PyVal.mock 2 []),
     ("foo", PyVal.mock 3 []), ("bar", PyVal.mock 4 [])] (by decide)
  have h2 := h.2 2 ("foo", PyVal.mock 3 []) (by decide)
  exact ⟨by decide, by simpa using h.1, h2.1, by decide, h2.2.1 (by decide)⟩

-- Closed forms for `_get_args_and_callable`'s two parameter loops.

/-- The values produced by the classmethod-branch loop: one fresh mock per
declared parameter, in counter order. -/
def freshValues (c0 : Nat) : List String → List PyVal
  | [] => []
  | _ :: t => .mock (c0 + 1) [] :: freshValues (c0 + 1) t

/-- The values produced by the instance-method/free-function loop: the
chain's last mock for a parameter named `self` when the chain is non-empty,
a fresh mock otherwise. -/
def gaacValues (plist : List PyVal) (c0 : Nat) : List String → List PyVal
  | [] => []
  | pn :: t =>
    match plist.getLast? with
    | some last =>
      if pn = "self" then last :: gaacValues plist c0 t
      else .mock (c0 + 1) [] :: gaacValues plist (c0 + 1) t
    | none => .mock (c0 + 1) [] :: gaacValues plist (c0 + 1) t

theorem foldFresh_closed :
    ∀ (params : List String) (ak : ArgsKwargs) (s : Sess),
      ak.indexMap.length = ak.values.length →
      (∀ pn ∈ params, ∀ e ∈ ak.indexMap, e.1 ≠ pn) →
      params.Nodup →
      ((params.foldl gaacFreshStep (ak, s)).1.values
          = ak.values ++ freshValues s.counter params ∧
       (params.foldl gaacFreshStep (ak, s)).1.indexMap
          = ak.indexMap ++ idxFrom ak.indexMap.length params) := by
  intro params
  induction params with
  | nil => intro ak s _ _ _; simp [freshValues, idxFrom]
  | cons pn t ih =>
    intro ak s hlen hdisj hnodup
    have hfind : ak.indexMap.find? (fun p => p.1 = pn) = none := by
      rw [List.find?_eq_none]
      intro e he
      simpa using hdisj pn (by simp) e he
    have hadd : ak.addArgument pn (.mock (s.counter + 1) []) =
        { values := ak.values ++ [.mock (s.counter + 1) []]
          indexMap := ak.indexMap ++ [(pn, ak.indexMap.length)] } := by
      unfold ArgsKwargs.addArgument
      rw [hfind]
      rfl
    have hstep : gaacFreshStep (ak, s) pn =
        ({ values := ak.values ++ [.mock (s.counter + 1) []]
           indexMap := ak.indexMap ++ [(pn, ak.indexMap.length)] },
         { mem := s.mem, patchers := s.patchers, counter := s.counter + 1 }) := by
      unfold gaacFreshStep freshMock
      rw [hadd]
    have hlen2 :
        (ak.indexMap ++ [(pn, ak.indexMap.length)]).length
          = (ak.values ++ [PyVal.mock (s.counter + 1) []]).length := by
      simp [hlen]
    have hdisj2 : ∀ qn ∈ t, ∀ e ∈ ak.indexMap ++ [(pn, ak.indexMap.length)], e.1 ≠ qn := by
      intro qn hqn e he
      simp only [List.mem_append, List.mem_singleton] at he
      rcases he with he | he
      · exact hdisj qn (by simp [hqn]) e he
      · subst he
        intro hcon
        have hpq : pn = qn := hcon
        exact (List.nodup_cons.mp hnodup).1 (by rw [hpq]; exact hqn)
    have hrec := ih { values := ak.values ++ [.mock (s.counter + 1) []]
                      indexMap := ak.indexMap ++ [(pn, ak.indexMap.length)] }
      { mem := s.mem, patchers := s.patchers, counter := s.counter + 1 }
      hlen2 hdisj2 (List.nodup_cons.mp hnodup).2
    simp only [List.foldl_cons, hstep]
    constructor
    · rw [hrec.1]
      simp [freshValues]
    · rw [hrec.2]
      simp only [idxFrom, List.length_append, List.length_cons, List.length_nil]
      rw [List.append_assoc]
      rfl

theorem foldSelf_closed (plist : List PyVal) :
    ∀ (params : List String) (ak : ArgsKwargs) (s : Sess),
      ak.indexMap.length = ak.values.length →
      (∀ pn ∈ params, ∀ e ∈ ak.indexMap, e.1 ≠ pn) →
      params.Nodup →
      ((params.foldl (gaacSelfStep plist) (ak, s)).1.values
          = ak.values ++ gaacValues plist s.counter params ∧
       (params.foldl (gaacSelfStep plist) (ak, s)).1.indexMap
          = ak.indexMap ++ idxFrom ak.indexMap.length params) := by
  intro params
  induction params with
  | nil => intro ak s _ _ _; simp [gaacValues, idxFrom]
  | cons pn t ih =>
    intro ak s hlen hdisj hnodup
    have hfind : ak.indexMap.find? (fun p => p.1 = pn) = none := by
      rw [List.find?_eq_none]
      intro e he
      simpa using hdisj pn (by simp) e he
    have hdisj2 : ∀ (x : Nat), ∀ qn ∈ t, ∀ e ∈ ak.indexMap ++ [(pn, x)], e.1 ≠ qn := by
      intro x qn hqn e he
      simp only [List.mem_append, List.mem_singleton] at he
      rcases he with he | he
      · exact hdisj qn (by simp [hqn]) e he
      · subst he
        intro hcon
        have hpq : pn = qn := hcon
        exact (List.nodup_cons.mp hnodup).1 (by rw [hpq]; exact hqn)
    cases hgl : plist.getLast? with
    | none =>
      have hadd : ak.addArgument pn (.mock (s.counter + 1) []) =
          { values := ak.values ++ [.mock (s.counter + 1) []]
            indexMap := ak.indexMap ++ [(pn, ak.indexMap.length)] } := by
        unfold ArgsKwargs.addArgument
        rw [hfind]
        rfl
      have hstep : gaacSelfStep plist (ak, s) pn =
          ({ values := ak.values ++ [.mock (s.counter + 1) []]
             indexMap := ak.indexMap ++ [(pn, ak.indexMap.length)] },
           { mem := s.mem, patchers := s.patchers, counter := s.counter + 1 }) := by
        unfold gaacSelfStep gaacFreshStep freshMock
        rw [hgl, hadd]
      have hrec := ih { values := ak.values ++ [.mock (s.counter + 1) []]
                        indexMap := ak.indexMap ++ [(pn, ak.indexMap.length)] }
        { mem := s.mem, patchers := s.patchers, counter := s.counter + 1 }
        (by simp [hlen]) (hdisj2 _) (List.nodup_cons.mp hnodup).2
      simp only [List.foldl_cons, hstep]
      constructor
      · rw [hrec.1]
        simp [gaacValues, hgl]
      · rw [hrec.2]
        simp only [idxFrom, List.length_append, List.length_cons, List.length_nil]
        rw [List.append_assoc]
        rfl
    | some last =>
      by_cases hp : pn = "self"
      · have hadd : ak.addArgument pn last =
            { values := ak.values ++ [last]
              indexMap := ak.indexMap ++ [(pn, ak.indexMap.length)] } := by
          unfold ArgsKwargs.addArgument
          rw [hfind]
          rfl
        have hstep : gaacSelfStep plist (ak, s) pn =
            ({ values := ak.values ++ [last]
               indexMap := ak.indexMap ++ [(pn, ak.indexMap.length)] }, s) := by
          unfold gaacSelfStep
          rw [hgl]
          simp only [if_pos hp, hadd]
        have hrec := ih { values := ak.values ++ [last]
                          indexMap := ak.indexMap ++ [(pn, ak.indexMap.length)] } s
          (by simp [hlen]) (hdisj2 _) (List.nodup_cons.mp hnodup).2
        simp only [List.foldl_cons, hstep]
        constructor
        · rw [hrec.1]
          simp [gaacValues, hgl, hp]
        · rw [hrec.2]
          simp only [idxFrom, List.length_append, List.length_cons, List.length_nil]
          rw [List.append_assoc]
          rfl
      · have hadd : ak.addArgument pn (.mock (s.counter + 1) []) =
            { values := ak.values ++ [.mock (s.counter + 1) []]
              indexMap := ak.indexMap ++ [(pn, ak.indexMap.length)] } := by
          unfold ArgsKwargs.addArgument
          rw [hfind]
          rfl
        have hstep : gaacSelfStep plist (ak, s) pn =
            ({ values := ak.values ++ [.mock (s.counter + 1) []]
               indexMap := ak.indexMap ++ [(pn, ak.indexMap.length)] },
             { mem := s.mem, patchers := s.patchers, counter := s.counter + 1 }) := by
          unfold gaacSelfStep gaacFreshStep freshMock
          rw [hgl]
          simp only [if_neg hp, hadd]
        have hrec := ih { values := ak.values ++ [.mock (s.counter + 1) []]
                          indexMap := ak.indexMap ++ [(pn, ak.indexMap.length)] }
          { mem := s.mem, patchers := s.patchers, counter := s.counter + 1 }
          (by simp [hlen]) (hdisj2 _) (List.nodup_cons.mp hnodup).2
        simp only [List.foldl_cons, hstep]
        constructor
        · rw [hrec.1]
          simp [gaacValues, hgl, hp]
        · rw [hrec.2]
          simp only [idxFrom, List.length_append, List.length_cons, List.length_nil]
          rw [List.append_assoc]
          rfl

theorem gaacValues_get?_self (plist : List PyVal) (last : PyVal)
    (hgl : plist.getLast? = some last) :
    ∀ (params : List String) (i c0 : Nat), params.get? i = some "self" →
      (gaacValues plist c0 params).get? i = some last := by
  intro params
  induction params with
  | nil => intro i c0 h; cases h
  | cons pn t ih =>
    intro i c0 h
    cases i with
    | zero =>
      cases h
      unfold gaacValues
      rw [hgl]
      simp
    | succ j =>
      simp only [List.get?_cons_succ] at h
      unfold gaacValues
      rw [hgl]
      by_cases hp : pn = "self"
      · simp only [if_pos hp, List.get?_cons_succ]
        exact ih j c0 h
      · simp only [if_neg hp, List.get?_cons_succ]
        exact ih j (c0 + 1) h

theorem gaacValues_nil_get? :
    ∀ (params : List String) (i c0 : Nat) (pn : String), params.get? i = some pn →
      (gaacValues [] c0 params).get? i = some (.mock (c0 + i + 1) []) := by
  intro params
  induction params with
  | nil => intro i c0 pn h; cases h
  | cons qn t ih =>
    intro i c0 pn h
    cases i with
    | zero =>
      unfold gaacValues
      simp
    | succ j =>
      simp only [List.get?_cons_succ] at h
      unfold gaacValues
      simp only [List.getLast?_nil, List.get?_cons_succ]
      have hrec := ih j (c0 + 1) pn h
      rw [hrec]
      have harith : c0 + 1 + j + 1 = c0 + (j + 1) + 1 := by omega
      rw [harith]

/-- C3.  Self/cls binding of `_get_args_and_callable`: (a) for a
non-classmethod target with a non-empty chain, a declared parameter
literally named `self` is bound to the chain's last (innermost) stand-in;
(b) for a classified class method with a non-empty chain, the implicit
leading `cls` binding (added before the declared-parameter loop) is the
same last stand-in, and it is the leading value; (c) for a free function
(empty chain), a parameter named `self` receives an ordinary fresh
stand-in (`mock (k+1) []` for some counter value `k`, never a chain mock),
not a chain binding.  Parts (a) and (b) assume the declared parameter
names are distinct (Python signatures cannot repeat a name) and (b) that
no declared parameter is itself named `cls` (the bound first parameter is
not part of `inspect.signature` for a bound classmethod). -/
theorem c3_self_cls_binding (env : PatchEnv) (func : PyVal) (plist : List PyVal)
    (s : Sess) (last : PyVal) :
    (env.ismethod func = false → plist.getLast? = some last →
      (env.signatureParams func).Nodup → "self" ∈ env.signatureParams func →
      (getArgsAndCallable env func plist s).1.args.get "self" = some last) ∧
    (env.ismethod func = true → plist.getLast? = some last →
      (env.signatureParams func).Nodup → "cls" ∉ env.signatureParams func →
      ((getArgsAndCallable env func plist s).1.args.get "cls" = some last ∧
       (getArgsAndCallable env func plist s).1.args.values.head? = some last)) ∧
    (env.ismethod func = false → plist = [] →
      (env.signatureParams func).Nodup → "self" ∈ env.signatureParams func →
      ∃ k, (getArgsAndCallable env func plist s).1.args.get "self"
        = some (.mock (k + 1) [])) := by
  refine ⟨?_, ?_, ?_⟩
  · intro hm hgl hnodup hmem
    have hclosed := foldSelf_closed plist (env.signatureParams func) ArgsKwargs.empty s
      rfl (fun pn _ e he => absurd he (by simp [ArgsKwargs.empty])) hnodup
    obtain ⟨i, hi⟩ := List.mem_iff_get?.mp hmem
    have hargs : (getArgsAndCallable env func plist s).1.args
        = ((env.signatureParams func).foldl (gaacSelfStep plist) (ArgsKwargs.empty, s)).1 := by
      unfold getArgsAndCallable
      simp [hm]
    rw [hargs]
    unfold ArgsKwargs.get
    rw [hclosed.2]
    have hmap : ArgsKwargs.empty.indexMap ++
        idxFrom ArgsKwargs.empty.indexMap.length (env.signatureParams func)
        = idxFrom 0 (env.signatureParams func) := by
      simp [ArgsKwargs.empty]
    rw [hmap, idxFrom_find? (env.signatureParams func) 0 i "self" hnodup hi]
    rw [hclosed.1]
    have hvals : ArgsKwargs.empty.values ++ gaacValues plist s.counter (env.signatureParams func)
        = gaacValues plist s.counter (env.signatureParams func) := by
      simp [ArgsKwargs.empty]
    rw [hvals]
    simpa using gaacValues_get?_self plist last hgl (env.signatureParams func) i s.counter hi
  · intro hm hgl hnodup hcls
    have hstart : ArgsKwargs.empty.addArgument "cls" last
        = { values := [last], indexMap := [("cls", 0)] } := by
      unfold ArgsKwargs.addArgument
      simp [ArgsKwargs.empty]
    have hdisj : ∀ pn ∈ env.signatureParams func,
        ∀ e ∈ ({ values := [last], indexMap := [("cls", 0)] } : ArgsKwargs).indexMap,
        e.1 ≠ pn := by
      intro pn hpn e he
      simp only [List.mem_singleton] at he
      subst he
      intro hcon
      have : ("cls" : String) ∈ env.signatureParams func := by
        have hpq : ("cls" : String) = pn := hcon
        rw [hpq]
        exact hpn
      exact hcls this
    have hclosed := foldFresh_closed (env.signatureParams func)
      { values := [last], indexMap := [("cls", 0)] } s rfl hdisj hnodup
    have hargs : (getArgsAndCallable env func plist s).1.args
        = ((env.signatureParams func).foldl gaacFreshStep
            ({ values := [last], indexMap := [("cls", 0)] }, s)).1 := by
      unfold getArgsAndCallable
      simp only [if_pos hm, hgl, hstart]
    rw [hargs]
    constructor
    · unfold ArgsKwargs.get
      simp only [hclosed.2, List.singleton_append]
      rw [List.find?_cons_of_pos _ (by simp)]
      simp only [hclosed.1, List.singleton_append]
      rfl
    · simp only [hclosed.1, List.singleton_append]
      rfl
  · intro hm hpl hnodup hmem
    subst hpl
    have hclosed := foldSelf_closed [] (env.signatureParams func) ArgsKwargs.empty s
      rfl (fun pn _ e he => absurd he (by simp [ArgsKwargs.empty])) hnodup
    obtain ⟨i, hi⟩ := List.mem_iff_get?.mp hmem
    refine ⟨s.counter + i, ?_⟩
    have hargs : (getArgsAndCallable env func [] s).1.args
        = ((env.signatureParams func).foldl (gaacSelfStep []) (ArgsKwargs.empty, s)).1 := by
      unfold getArgsAndCallable
      simp [hm]
    rw [hargs]
    unfold ArgsKwargs.get
    rw [hclosed.2]
    have hmap : ArgsKwargs.empty.indexMap ++
        idxFrom ArgsKwargs.empty.indexMap.length (env.signatureParams func)
        = idxFrom 0 (env.signatureParams func) := by
      simp [ArgsKwargs.empty]
    rw [hmap, idxFrom_find? (env.signatureParams func) 0 i "self" hnodup hi]
    rw [hclosed.1]
    have hvals : ArgsKwargs.empty.values ++ gaacValues [] s.counter (env.signatureParams func)
        = gaacValues [] s.counter (env.signatureParams func) := by
      simp [ArgsKwargs.empty]
    rw [hvals]
    simpa using gaacValues_nil_get? (env.signatureParams func) i s.counter "self" hi

def sessX : Sess := { mem := initMemory [], patchers := [], counter := 0 }

def envC3 : PatchEnv :=
  { realGet := fun _ _ => none
    isExcClass := fun _ => false
    isMockInst := fun _ => false
    signatureParams := fun f =>
      if f = .real ["FirstClass", "success_method"] then ["self", "method_argument"]
      else if f = .real ["FirstClass", "success_class_method"] then ["class_method_argument"]
      else if f = .real ["free_self_function"] then ["self", "x"]
      else []
    ismethod := fun f => f = .real ["FirstClass", "success_class_method"]
    dunderFunc := fun f => f }

theorem c3_self_cls_binding_witness :
    (getArgsAndCallable envC3 (.real ["FirstClass", "success_method"])
        [.mock 0 ["FirstClass"]] sessX).1.args.get "self"
      = some (.mock 0 ["FirstClass"]) ∧
    (getArgsAndCallable envC3 (.real ["FirstClass", "success_class_method"])
        [.mock 0 ["FirstClass"]] sessX).1.args.get "cls"
      = some (.mock 0 ["FirstClass"]) ∧
    (getArgsAndCallable envC3 (.real ["FirstClass", "success_class_method"])
        [.mock 0 ["FirstClass"]] sessX).1.args.values.head?
      = some (.mock 0 ["FirstClass"]) ∧
    (getArgsAndCallable envC3 (.real ["free_self_function"]) [] sessX).1.args.get "self"
      = some (.mock 1 []) := by
  have ha := (c3_self_cls_binding envC3 (.real ["FirstClass", "success_method"])
      [.mock 0 ["FirstClass"]] sessX (.mock 0 ["FirstClass"])).1
    (by decide) (by decide) (by decide) (by decide)
  have hb := (c3_self_cls_binding envC3 (.real ["FirstClass", "success_class_method"])
      [.mock 0 ["FirstClass"]] sessX (.mock 0 ["FirstClass"])).2.1
    (by decide) (by decide) (by decide) (by decide)
  exact ⟨ha, hb.1, hb.2, by decide⟩

-- Machinery for exception-class preservation: in any configuration whose
-- attribute values never alias the module object itself, no phase of the
-- entry ever writes to a module attribute it did not explicitly target.

/-- No patchable attribute location holds the module object itself (the
`FakeModule.tm` slot is exempt: it holds the module by construction). -/
def NoModuleVals (mem : Memory) : Prop :=
  ∀ l, l ≠ .fakeTm → mem l ≠ some .module

theorem noModuleVals_initMemory (dict : List (String × PyVal))
    (h1 : ∀ kw ∈ dict, kw.2 ≠ PyVal.module) :
    NoModuleVals (initMemory dict) := by
  intro l hl
  unfold initMemory
  match l with
  | .fakeTm => exact absurd rfl hl
  | .moduleAttr n =>
    intro hcon
    simp only [Option.map_eq_some'] at hcon
    obtain ⟨kw, hfind, hsnd⟩ := hcon
    exact h1 kw (List.mem_of_find?_eq_some hfind) hsnd
  | .realAttr p n => intro hcon; cases hcon
  | .mockAttr r p n => intro hcon; cases hcon

theorem noModuleVals_applyPatch {s : Sess} (h : NoModuleVals s.mem)
    (l : Loc) (v : PyVal) (hv : v ≠ .module) :
    NoModuleVals (applyPatch s l v).mem := by
  intro l2 hl2
  unfold applyPatch
  by_cases he : l2 = l
  · simp only [he, if_pos rfl]
    intro hcon
    exact hv (by injection hcon)
  · simp only [if_neg he]
    exact h l2 hl2

theorem getAttr_ne_module (env : PatchEnv) (mem : Memory)
    (h : NoModuleVals mem) (h2 : ∀ p m, env.realGet p m ≠ some PyVal.module) :
    ∀ v n w, getAttr env mem v n = some w → w ≠ .module := by
  intro v n w hga hcon
  subst hcon
  cases v with
  | module =>
    simp only [getAttr] at hga
    exact h (.moduleAttr n) (by simp) hga
  | real p =>
    simp only [getAttr] at hga
    revert hga
    cases hmem : mem (.realAttr p n) with
    | some w2 =>
      intro hga
      injection hga with hga2
      subst hga2
      exact h (.realAttr p n) (by simp) hmem
    | none =>
      intro hga
      exact h2 p n hga
  | mock r p =>
    simp only [getAttr] at hga
    injection hga with hga2
    revert hga2
    unfold getAttrOnMock
    cases hmem : mem (.mockAttr r p n) with
    | some w2 =>
      intro hga2
      subst hga2
      exact h (.mockAttr r p n) (by simp) hmem
    | none =>
      intro hga2
      cases hga2

theorem walkAttrs_ne_module (env : PatchEnv) (mem : Memory)
    (h : NoModuleVals mem) (h2 : ∀ p m, env.realGet p m ≠ some PyVal.module) :
    ∀ (segs : List String) (obj v : PyVal), segs ≠ [] →
      walkAttrs env mem obj segs = .ok v → v ≠ .module := by
  intro segs
  induction segs with
  | nil => intro obj v hne _; exact absurd rfl hne
  | cons seg t ih =>
    intro obj v _ hw
    unfold walkAttrs at hw
    simp only [List.foldlM_cons] at hw
    revert hw
    split
    · rename_i w hga
      intro hw
      cases t with
      | nil =>
        simp only [List.foldlM_nil] at hw
        cases hw
        exact getAttr_ne_module env mem h h2 obj seg v hga
      | cons t1 t2 =>
        exact ih w v (by simp) hw
    · intro hw
      cases hw

/-- The invariant for exception-class preservation: no aliased module
values anywhere, and the module binding of `n` still holds `v`. -/
def ExcPreserved (n : String) (v : PyVal) (s : Sess) : Prop :=
  NoModuleVals s.mem ∧ s.mem (.moduleAttr n) = some v

theorem getAttrOnMock_ne_module {mem : Memory} (h : NoModuleVals mem)
    (r : Nat) (p : List String) (k : String) :
    getAttrOnMock mem r p k ≠ .module := by
  unfold getAttrOnMock
  split
  · rename_i w hmem
    intro hcon
    subst hcon
    exact h (.mockAttr r p k) (by simp) hmem
  · intro hcon
    cases hcon

theorem applyPatch_mem_other {s : Sess} {l l2 : Loc} (hne : l2 ≠ l) (v : PyVal) :
    (applyPatch s l v).mem l2 = s.mem l2 := by
  unfold applyPatch
  simp [hne]

theorem keys_nodup_value_unique :
    ∀ (pairs : List (String × PyVal)) (n : String) (v w : PyVal),
      (pairs.map Prod.fst).Nodup → (n, v) ∈ pairs → (n, w) ∈ pairs → w = v := by
  intro pairs
  induction pairs with
  | nil => intro n v w _ hv _; cases hv
  | cons kw t ih =>
    intro n v w hnodup hv hw
    simp only [List.map_cons, List.nodup_cons] at hnodup
    simp only [List.mem_cons] at hv hw
    rcases hv with hv | hv
    · rcases hw with hw | hw
      · rw [← hv] at hw
        exact (Prod.ext_iff.mp hw).2
      · exfalso
        apply hnodup.1
        have : kw.1 = n := by rw [← hv]
        rw [this]
        exact List.mem_map_of_mem Prod.fst hw
    · rcases hw with hw | hw
      · exfalso
        apply hnodup.1
        have : kw.1 = n := by rw [← hw]
        rw [this]
        exact List.mem_map_of_mem Prod.fst hv
      · exact ih n v w hnodup.2 hv hw

/-- An exception-class identifier is always skipped by the module pass:
every branch reached for it returns the state unchanged. -/
theorem moduleIdentifierStep_exc (env : PatchEnv) (cfg : RPConfig) (ex : ExclSets)
    (incEff : List String) (plist : List PyVal) (s : Sess) (nv : String × PyVal)
    (hexc : isExcVal env nv.2 = true) :
    moduleIdentifierStep env cfg ex incEff plist s nv = s := by
  unfold moduleIdentifierStep
  repeat' split
  any_goals rfl

theorem excPreserved_moduleStep (env : PatchEnv) (cfg : RPConfig) (ex : ExclSets)
    (incEff : List String) (plist : List PyVal) {s : Sess} {n : String} {v : PyVal}
    (h : ExcPreserved n v s) (nv : String × PyVal)
    (huniq : nv.1 = n → nv.2 = v) (hexcv : isExcVal env v = true) :
    ExcPreserved n v (moduleIdentifierStep env cfg ex incEff plist s nv) := by
  by_cases hk : nv.1 = n
  · rw [moduleIdentifierStep_exc env cfg ex incEff plist s nv (by rw [huniq hk]; exact hexcv)]
    exact h
  · unfold moduleIdentifierStep
    repeat' split
    any_goals exact h
    constructor
    · exact noModuleVals_applyPatch h.1 _ _ (getAttrOnMock_ne_module h.1 0 [] nv.1)
    · have hne : Loc.moduleAttr n ≠ Loc.moduleAttr nv.1 := by
        intro hcon
        injection hcon with h3
        exact hk h3.symm
      rw [applyPatch_mem_other hne _]
      exact h.2

theorem excPreserved_moduleFold (env : PatchEnv) (cfg : RPConfig) (ex : ExclSets)
    (incEff : List String) (plist : List PyVal) (n : String) (v : PyVal)
    (hexcv : isExcVal env v = true) :
    ∀ (items : List (String × PyVal)) (s : Sess),
      ExcPreserved n v s → (∀ nv ∈ items, nv.1 = n → nv.2 = v) →
      ExcPreserved n v (items.foldl (moduleIdentifierStep env cfg ex incEff plist) s) := by
  intro items
  induction items with
  | nil => intro s h _; exact h
  | cons nv t ih =>
    intro s h huniq
    simp only [List.foldl_cons]
    refine ih _ ?_ (fun mv hmv => huniq mv (by simp [hmv]))
    exact excPreserved_moduleStep env cfg ex incEff plist h nv (huniq nv (by simp)) hexcv

theorem excPreserved_patchModuleIdentifiers (env : PatchEnv) (cfg : RPConfig)
    (ex : ExclSets) (incEff : List String) (plist : List PyVal)
    {s : Sess} {n : String} {v : PyVal}
    (h : ExcPreserved n v s) (hmem : (n, v) ∈ cfg.dict)
    (hnodup : (cfg.dict.map Prod.fst).Nodup) (hexcv : isExcVal env v = true) :
    ExcPreserved n v (patchModuleIdentifiers env cfg ex incEff plist s) := by
  unfold patchModuleIdentifiers
  refine excPreserved_moduleFold env cfg ex incEff plist n v hexcv cfg.dict s h ?_
  intro nv hnv hk
  refine keys_nodup_value_unique cfg.dict n v nv.2 hnodup hmem ?_
  have hnv2 : nv = (n, nv.2) := by
    rw [← hk]
  rw [← hnv2]
  exact hnv

theorem splitDotAux_ne_nil : ∀ (cs : List Char), splitDotAux cs ≠ [] := by
  intro cs
  cases cs with
  | nil => simp [splitDotAux]
  | cons c t =>
    unfold splitDotAux
    split
    · simp
    · split <;> simp

theorem splitDotAux_singleton : ∀ (cs : List Char) (g : List Char),
    splitDotAux cs = [g] → g = cs := by
  intro cs
  induction cs with
  | nil =>
    intro g h
    simp only [splitDotAux] at h
    injection h with h1
    exact h1.symm
  | cons c t ih =>
    intro g h
    cases haux : splitDotAux t with
    | nil => exact absurd haux (splitDotAux_ne_nil t)
    | cons g0 gs =>
      have heq2 : splitDotAux (c :: t) = if c = '.' then [] :: g0 :: gs else (c :: g0) :: gs := by
        unfold splitDotAux
        rw [haux]
      rw [heq2] at h
      by_cases hc : c = '.'
      · rw [if_pos hc] at h
        injection h with _ h2
        cases h2
      · rw [if_neg hc] at h
        injection h with h1 h2
        subst h2
        have hg0 := ih g0 haux
        rw [← h1, hg0]

theorem splitDot_ne_nil (s : String) : splitDot s ≠ [] := by
  unfold splitDot
  intro hcon
  exact splitDotAux_ne_nil s.data (List.map_eq_nil.mp hcon)

theorem splitDot_singleton (s : String) (x : String) (h : splitDot s = [x]) : x = s := by
  unfold splitDot at h
  cases haux : splitDotAux s.data with
  | nil => exact absurd haux (splitDotAux_ne_nil s.data)
  | cons g0 gs =>
    rw [haux] at h
    simp only [List.map_cons] at h
    injection h with h1 h2
    have hgs : gs = [] := List.map_eq_nil.mp h2
    subst hgs
    have hg : g0 = s.data := splitDotAux_singleton s.data g0 haux
    rw [← h1, hg]

theorem dropLast_nil_cases : ∀ (l : List String), l ≠ [] → l.dropLast = [] →
    ∃ x, l = [x] := by
  intro l
  cases l with
  | nil => intro h _; exact absurd rfl h
  | cons a t =>
    intro _ hdrop
    cases t with
    | nil => exact ⟨a, rfl⟩
    | cons b t2 => simp [List.dropLast] at hdrop

theorem attrLoc_ne_moduleAttr (parent : PyVal) (hpar : parent ≠ .module)
    (leaf m : String) : attrLoc parent leaf ≠ .moduleAttr m := by
  cases parent with
  | module => exact absurd rfl hpar
  | real p => intro hcon; cases hcon
  | mock r p => intro hcon; cases hcon

theorem excPreserved_includeStep (env : PatchEnv) {s s' : Sess} {n : String} {v : PyVal}
    (h : ExcPreserved n v s) (h2 : ∀ p m, env.realGet p m ≠ some PyVal.module)
    (p : String) (hp : p ≠ n) (hstep : includeStep env s p = .ok s') :
    ExcPreserved n v s' := by
  unfold includeStep at hstep
  split at hstep
  · cases hstep
  · rename_i parent hwalk
    split at hstep
    · cases hstep
      exact h
    · cases hstep
      have hvne : (freshMock s).1 ≠ PyVal.module := by
        unfold freshMock
        intro hcon
        cases hcon
      have hmemeq : (freshMock s).2.mem = s.mem := (freshMock_fields s).1
      have hlocne : attrLoc parent ((splitDot p).getLastD p) ≠ .moduleAttr n := by
        cases hdrop : (splitDot p).dropLast with
        | nil =>
          obtain ⟨x, hx⟩ := dropLast_nil_cases (splitDot p) (splitDot_ne_nil p) hdrop
          have hxp : x = p := splitDot_singleton p x hx
          rw [hdrop] at hwalk
          have hpar : parent = PyVal.module := by
            unfold walkAttrs at hwalk
            simp only [List.foldlM_nil] at hwalk
            injection hwalk with h1
            exact h1.symm
          subst hpar
          rw [hx]
          have hlast : ([x] : List String).getLastD p = x := rfl
          rw [hlast, hxp]
          simp only [attrLoc]
          intro hcon
          injection hcon with h3
          exact hp h3
        | cons d t =>
          have hpar : parent ≠ PyVal.module :=
            walkAttrs_ne_module env s.mem h.1 h2 ((splitDot p).dropLast) .module parent
              (by rw [hdrop]; simp) hwalk
          exact attrLoc_ne_moduleAttr parent hpar _ n
      constructor
      · refine noModuleVals_applyPatch ?_ _ _ hvne
        rw [hmemeq]
        exact h.1
      · have := @applyPatch_mem_other (freshMock s).2
          (attrLoc parent ((splitDot p).getLastD p))
          (Loc.moduleAttr n) (fun hcon => hlocne hcon.symm) (freshMock s).1
        rw [this, hmemeq]
        exact h.2

theorem excPreserved_patchIncludeSet (env : PatchEnv) (ex : ExclSets)
    (incEff : List String) {s s' : Sess} {n : String} {v : PyVal}
    (h : ExcPreserved n v s) (h2 : ∀ p m, env.realGet p m ≠ some PyVal.module)
    (hn : n ∉ incEff) (hstep : patchIncludeSet env ex incEff s = .ok s') :
    ExcPreserved n v s' := by
  unfold patchIncludeSet at hstep
  have hmemb : ∀ p ∈ incEff.filter (fun p => p ∉ ex.ids ++ ex.paths ++ ex.objPaths),
      p ≠ n := by
    intro p hpmem hcon
    subst hcon
    exact hn (List.mem_of_mem_filter hpmem)
  revert hstep
  generalize incEff.filter (fun p => p ∉ ex.ids ++ ex.paths ++ ex.objPaths) = items at hmemb ⊢
  intro hstep
  induction items generalizing s with
  | nil =>
    simp only [List.foldlM_nil] at hstep
    cases hstep
    exact h
  | cons p t ih =>
    simp only [List.foldlM_cons] at hstep
    cases hs1 : includeStep env s p with
    | error e =>
      rw [hs1] at hstep
      exact (Except.noConfusion hstep)
    | ok s1 =>
      rw [hs1] at hstep
      exact ih (excPreserved_includeStep env h h2 p (hmemb p (by simp)) hs1)
        (fun q hq => hmemb q (by simp [hq])) hstep

theorem excPreserved_of_mem {s s' : Sess} {n : String} {v : PyVal}
    (hm : s'.mem = s.mem) (h : ExcPreserved n v s) : ExcPreserved n v s' := by
  constructor
  · rw [hm]; exact h.1
  · rw [hm]; exact h.2

theorem excPreserved_applyPatch {s : Sess} {n : String} {v : PyVal}
    (h : ExcPreserved n v s) (l : Loc) (w : PyVal)
    (hw : w ≠ .module) (hl : l ≠ .moduleAttr n) :
    ExcPreserved n v (applyPatch s l w) := by
  constructor
  · exact noModuleVals_applyPatch h.1 l w hw
  · rw [applyPatch_mem_other (fun hcon => hl hcon.symm) w]
    exact h.2

theorem excPreserved_excludeWalk (env : PatchEnv) (plist : List PyVal)
    (xo : PyVal) (xp : String) (nT : Nat) {n : String} {v : PyVal}
    (hxo : xo ≠ .module) (h2 : ∀ p m, env.realGet p m ≠ some PyVal.module) :
    ∀ (rest : List String) (idx : Nat) (parent : PyVal)
      (s : Sess) (excls : List (ExclKey × CallableDTO))
      (s' : Sess) (excls' : List (ExclKey × CallableDTO)),
      parent ≠ .module →
      excludeWalk env plist xo xp nT idx parent rest (s, excls) = .ok (s', excls') →
      ExcPreserved n v s → ExcPreserved n v s' := by
  intro rest
  induction rest with
  | nil =>
    intro idx parent s excls s' excls' _ hw h
    unfold excludeWalk at hw
    cases hw
    exact h
  | cons excId t ih =>
    intro idx parent s excls s' excls' hpar hw h
    unfold excludeWalk at hw
    split at hw
    · cases hw
    rename_i current hga
    have hcur : current ≠ .module :=
      getAttr_ne_module env s.mem h.1 h2 parent excId current hga
    split at hw
    · exact ih _ _ _ _ _ _ hcur hw h
    · split at hw
      · refine ih _ _ _ _ _ _ hcur hw ?_
        exact excPreserved_applyPatch h _ _ hcur
          (attrLoc_ne_moduleAttr parent hpar _ n)
      · split at hw
        · refine ih _ _ _ _ _ _ hcur hw ?_
          refine excPreserved_applyPatch ?_ _ _ hxo
            (attrLoc_ne_moduleAttr parent hpar _ n)
          exact excPreserved_of_mem
            (getArgsAndCallable_fields env xo [parent] s).1 h
        · refine ih _ _ _ _ _ _ hcur hw ?_
          exact excPreserved_applyPatch h _ _ hxo
            (attrLoc_ne_moduleAttr parent hpar _ n)

theorem excPreserved_excludePathStep (env : PatchEnv) (plist : List PyVal)
    {acc out : Sess × List (ExclKey × CallableDTO)} {xp : String}
    {n : String} {v : PyVal}
    (h : ExcPreserved n v acc.1) (h2 : ∀ p m, env.realGet p m ≠ some PyVal.module)
    (hstep : excludePathStep env plist acc xp = .ok out) :
    ExcPreserved n v out.1 := by
  unfold excludePathStep at hstep
  split at hstep
  · cases hstep
  rename_i xo hga
  · have hxo : xo ≠ .module := by
      unfold getattrByPath at hga
      exact walkAttrs_ne_module env acc.1.mem h.1 h2 (splitDot xp) .module xo
        (splitDot_ne_nil xp) hga
    split at hstep
    · cases hstep
    · split at hstep
      · rcases acc with ⟨s, excls⟩
        rcases out with ⟨s', excls'⟩
        exact excPreserved_excludeWalk env plist xo xp _ hxo h2 _ _ _ _ _ _ _
          (by intro hcon; cases hcon) hstep h
      · cases hstep
        exact h

theorem excPreserved_excludeFold (env : PatchEnv) (plist : List PyVal)
    {n : String} {v : PyVal}
    (h2 : ∀ p m, env.realGet p m ≠ some PyVal.module) :
    ∀ (paths : List String) (acc out : Sess × List (ExclKey × CallableDTO)),
      paths.foldlM (excludePathStep env plist) acc = .ok out →
      ExcPreserved n v acc.1 → ExcPreserved n v out.1 := by
  intro paths
  induction paths with
  | nil =>
    intro acc out hw h
    simp only [List.foldlM_nil] at hw
    cases hw
    exact h
  | cons xp t ih =>
    intro acc out hw h
    simp only [List.foldlM_cons] at hw
    cases hs1 : excludePathStep env plist acc xp with
    | error e =>
      rw [hs1] at hw
      exact (Except.noConfusion hw)
    | ok acc1 =>
      rw [hs1] at hw
      exact ih _ _ hw (excPreserved_excludePathStep env plist h h2 hs1)

theorem keysNodup_find? :
    ∀ (pairs : List (String × PyVal)) (n : String) (v : PyVal),
      (pairs.map Prod.fst).Nodup → (n, v) ∈ pairs →
      pairs.find? (fun p => p.1 = n) = some (n, v) := by
  intro pairs
  induction pairs with
  | nil => intro n v _ hmem; cases hmem
  | cons kw t ih =>
    intro n v hnodup hmem
    simp only [List.map_cons, List.nodup_cons] at hnodup
    by_cases hk : kw.1 = n
    · have hkw : kw = (n, v) := by
        simp only [List.mem_cons] at hmem
        rcases hmem with hmem | hmem
        · exact hmem.symm
        · exfalso
          apply hnodup.1
          rw [hk]
          exact List.mem_map_of_mem Prod.fst hmem
      rw [List.find?_cons_of_pos _ (by simp [hk])]
      rw [hkw]
    · have hmem2 : (n, v) ∈ t := by
        simp only [List.mem_cons] at hmem
        rcases hmem with hmem | hmem
        · exact absurd (by rw [← hmem]) hk
        · exact hmem
      rw [List.find?_cons_of_neg _ (by simp [hk])]
      exact ih n v hnodup.2 hmem2

/-- C5 (amended).  Exception classes are never substituted by the module
pass: every reached branch of `_patch_module_identifiers` skips them.  And
for any successfully entered session whose include set does not name the
exception class (and whose attribute values do not alias the module
object), the scope's binding for that name after entry is identity-equal
to its pre-session definition.  (The unamended claim fails when the
exception class is force-included: see the counterexample.) -/
theorem c5_exception_exemption :
    (∀ (env : PatchEnv) (cfg : RPConfig) (ex : ExclSets) (incEff : List String)
        (plist : List PyVal) (s : Sess) (nv : String × PyVal),
        isExcVal env nv.2 = true →
        moduleIdentifierStep env cfg ex incEff plist s nv = s) ∧
    (∀ (env : PatchEnv) (cfg : RPConfig) (dto : RPDto) (s : Sess) (n : String) (v : PyVal),
        rpSession env cfg = .ok (dto, s) →
        (n, v) ∈ cfg.dict →
        (cfg.dict.map Prod.fst).Nodup →
        isExcVal env v = true →
        n ∉ ("id" :: cfg.includeSet).dedup →
        (∀ kw ∈ cfg.dict, kw.2 ≠ PyVal.module) →
        (∀ p m, env.realGet p m ≠ some PyVal.module) →
        s.mem (.moduleAttr n) = some v) := by
  constructor
  · intro env cfg ex incEff plist s nv hexc
    exact moduleIdentifierStep_exc env cfg ex incEff plist s nv hexc
  · intro env cfg dto s n v h hmem hnodup hexcv hninc h1 h2
    unfold rpSession at h
    split at h
    · exact (Except.noConfusion h)
    · rename_i st hst
      have hinc : st.includeEff = ("id" :: cfg.includeSet).dedup := by
        unfold rpInit at hst
        revert hst
        cases hie : initExclusions cfg.excludeSet with
        | error e => intro hst; cases hst
        | ok ex0 =>
          intro hst
          cases hst
          rfl
      unfold rpEnter at h
      split at h
      · exact (Except.noConfusion h)
      · rename_i plist hpl
        split at h
        · exact (Except.noConfusion h)
        · rename_i s4 hs4
          split at h
          · exact (Except.noConfusion h)
          · rename_i s5 excls hp5
            cases h
            have h0 : ExcPreserved n v (sess1 cfg) := by
              constructor
              · exact noModuleVals_applyPatch (noModuleVals_initMemory cfg.dict h1) _ _
                  (by intro hcon; cases hcon)
              · have hother : (applyPatch (sess0 cfg) .fakeTm (.mock 0 [])).mem
                    (.moduleAttr n) = (sess0 cfg).mem (.moduleAttr n) :=
                  applyPatch_mem_other (by intro hcon; cases hcon) _
                rw [show (sess1 cfg).mem = (applyPatch (sess0 cfg) .fakeTm (.mock 0 [])).mem
                      from rfl, hother]
                show (cfg.dict.find? (fun p => p.1 = n)).map Prod.snd = some v
                rw [keysNodup_find? cfg.dict n v hnodup hmem]
                rfl
            have hgaac : ExcPreserved n v (getArgsAndCallable env cfg.func plist (sess1 cfg)).2 :=
              excPreserved_of_mem (getArgsAndCallable_fields env cfg.func plist (sess1 cfg)).1 h0
            have hmod := excPreserved_patchModuleIdentifiers env cfg st.ex st.includeEff plist
              hgaac hmem hnodup hexcv
            have hincp := excPreserved_patchIncludeSet env st.ex st.includeEff hmod h2
              (by rw [hinc]; exact hninc) hs4
            have hfinal := excPreserved_excludeFold env plist h2 _ (s4, []) (s, excls) hp5 hincp
            exact hfinal.2

def cfgC5 : RPConfig :=
  { dict := [("SomeException", .real ["SomeException"]),
             ("raise_some_exception", .real ["raise_some_exception"])]
    func := .real ["raise_some_exception"]
    funcQualname := ["raise_some_exception"]
    includeSet := ["SomeException"]
    excludeSet := [] }

/-- C5's unamended reading is false on the code: force-including an
exception class by name does substitute it (mirrors
`test_skip_exception_classes`, where `include_set={'SomeException'}` makes
`raise SomeException` hit a mock).  After entry the binding holds a fresh
mock, not the pre-session class. -/
theorem c5_counterexample :
    (rpSession envW cfgC5).toOption.map (fun p => p.2.mem (.moduleAttr "SomeException"))
      = some (some (.mock 2 [])) ∧
    initMemory cfgC5.dict (.moduleAttr "SomeException") = some (.real ["SomeException"]) ∧
    isExcVal envW (.real ["SomeException"]) = true ∧
    (PyVal.mock 2 [] : PyVal) ≠ .real ["SomeException"] := by
  exact ⟨by decide, by decide, by decide, by decide⟩

theorem c5_exception_exemption_witness :
    (rpSession envW cfgW).toOption.map (fun p => p.2.mem (.moduleAttr "SomeException"))
      = some (some (.real ["SomeException"])) ∧
    moduleIdentifierStep envW cfgW ⟨[], [], [], [], []⟩ ["id"] [] sessX
      ("SomeException", .real ["SomeException"]) = sessX := by
  have h2W : ∀ p m, envW.realGet p m ≠ some PyVal.module := by
    intro p m
    simp only [envW]
    split
    · simp
    · split
      · simp
      · simp
  constructor
  · cases hh : rpSession envW cfgW with
    | error e =>
      have hsome : (rpSession envW cfgW).toOption.isSome = true := by decide
      rw [hh] at hsome
      simp [Except.toOption] at hsome
    | ok p =>
      simp only [Except.toOption, Option.map]
      rw [c5_exception_exemption.2 envW cfgW p.1 p.2 "SomeException" (.real ["SomeException"])
        (by rw [hh]) (by decide) (by decide) (by decide) (by decide) (by decide) h2W]
  · exact c5_exception_exemption.1 envW cfgW ⟨[], [], [], [], []⟩ ["id"] [] sessX
      ("SomeException", .real ["SomeException"]) (by decide)

/-- C7.  The auto-invoke variant `Rc`: after a successful base entry it
calls the resolved invocable with the bound arguments; if the call raises,
it performs full exit-teardown (restoring every location to its pre-entry
value) and re-raises the same exception unchanged; otherwise it returns a
result bundle carrying the call's result together with the base bundle's
arguments, callable and exclusions, with no teardown yet. -/
theorem c7_rc_auto_invoke (env : PatchEnv) (cfg : RPConfig)
    (call : PyVal → List PyVal → Except PyErr PyVal) (dto : RPDto) (s : Sess)
    (h : rpSession env cfg = .ok (dto, s)) :
    (∀ e, call dto.c dto.args.values = .error e →
      (rcSession env cfg call = .ok (.error e, rpExit s) ∧
       ∀ l, rpExit s l = initMemory cfg.dict l)) ∧
    (∀ r, call dto.c dto.args.values = .ok r →
      rcSession env cfg call
        = .ok (.ok { r := r, args := dto.args, c := dto.c, exclusions := dto.exclusions },
               s.mem)) := by
  constructor
  · intro e hcall
    refine ⟨?_, rpSession_undo env cfg h⟩
    simp only [rcSession, h, Except.map, rcEnterFrom, hcall]
  · intro r hcall
    simp only [rcSession, h, Except.map, rcEnterFrom, hcall]

theorem c7_rc_auto_invoke_witness :
    ((rcSession envW cfgW (fun _ _ => .error (.valueError "boom"))).toOption.map
        (fun q => q.1) = some (.error (.valueError "boom")) ∧
     (rcSession envW cfgW (fun _ _ => .error (.valueError "boom"))).toOption.map
        (fun q => q.2 (.moduleAttr "MODULE_CONST"))
       = some (some (.real ["MODULE_CONST"])) ∧
     (rcSession envW cfgW (fun _ _ => .error (.valueError "boom"))).toOption.map
        (fun q => q.2 (.mockAttr 0 ["InitCase"] "m__init__")) = some none) ∧
    (rcSession envW cfgW (fun _ _ => .ok (.real ["result"]))).toOption.map
        (fun q => match q.1 with
          | .ok rc => some rc.r
          | .error _ => none) = some (some (.real ["result"])) := by
  cases hh : rpSession envW cfgW with
  | error e =>
    have hsome : (rpSession envW cfgW).toOption.isSome = true := by decide
    rw [hh] at hsome
    simp [Except.toOption] at hsome
  | ok p =>
    have herr := (c7_rc_auto_invoke envW cfgW (fun _ _ => .error (.valueError "boom"))
      p.1 p.2 (by rw [hh])).1 (.valueError "boom") rfl
    have hok := (c7_rc_auto_invoke envW cfgW (fun _ _ => .ok (.real ["result"]))
      p.1 p.2 (by rw [hh])).2 (.real ["result"]) rfl
    refine ⟨⟨?_, ?_, ?_⟩, ?_⟩
    · rw [herr.1]
      rfl
    · rw [herr.1]
      simp only [Except.toOption, Option.map]
      rw [herr.2 (.moduleAttr "MODULE_CONST")]
      rfl
    · rw [herr.1]
      simp only [Except.toOption, Option.map]
      rw [herr.2 (.mockAttr 0 ["InitCase"] "m__init__")]
      rfl
    · rw [hok]
      rfl

theorem splitDotAux_no_dot : ∀ (cs : List Char), cs.contains '.' = false →
    splitDotAux cs = [cs] := by
  intro cs
  induction cs with
  | nil => intro _; rfl
  | cons c t ih =>
    intro h
    simp only [List.contains_cons, Bool.or_eq_false_iff] at h
    have hc : ¬ c = '.' := by
      intro hcon
      subst hcon
      simp at h
    unfold splitDotAux
    rw [ih h.2]
    simp [hc]

theorem splitDot_of_not_hasDot (s : String) (h : hasDot s = false) :
    splitDot s = [s] := by
  unfold splitDot
  rw [splitDotAux_no_dot s.data h]
  rfl

theorem moduleStep_mem_excluded (env : PatchEnv) (cfg : RPConfig) (ex : ExclSets)
    (incEff : List String) (plist : List PyVal) (s : Sess) (nv : String × PyVal)
    (n : String) (hn : n ∈ ex.ids ++ ex.firstPath ++ ex.firstObjPath) :
    (moduleIdentifierStep env cfg ex incEff plist s nv).mem (.moduleAttr n)
      = s.mem (.moduleAttr n) := by
  by_cases hk : nv.1 = n
  · unfold moduleIdentifierStep
    rw [if_pos (hk ▸ hn)]
  · unfold moduleIdentifierStep
    repeat' split
    any_goals rfl
    refine applyPatch_mem_other ?_ _
    intro hcon
    injection hcon with h3
    exact hk h3.symm

theorem moduleFold_mem_excluded (env : PatchEnv) (cfg : RPConfig) (ex : ExclSets)
    (incEff : List String) (plist : List PyVal) (n : String)
    (hn : n ∈ ex.ids ++ ex.firstPath ++ ex.firstObjPath) :
    ∀ (items : List (String × PyVal)) (s : Sess),
      (items.foldl (moduleIdentifierStep env cfg ex incEff plist) s).mem (.moduleAttr n)
        = s.mem (.moduleAttr n) := by
  intro items
  induction items with
  | nil => intro s; rfl
  | cons nv t ih =>
    intro s
    simp only [List.foldl_cons]
    rw [ih _, moduleStep_mem_excluded env cfg ex incEff plist s nv n hn]

theorem getPatchingList_ok (env : PatchEnv) (mem : Memory)
    (hmock : ∀ r p nn, mem (.mockAttr r p nn) = none) (qualname : List String) :
    ∃ plist, getPatchingList env mem qualname = .ok plist := by
  unfold getPatchingList
  suffices hgen : ∀ (names : List String) (acc : List PyVal) (r : Nat) (p : List String),
      ∃ res : List PyVal × PyVal, names.foldlM
        (fun (acc : List PyVal × PyVal) n =>
          (match getAttr env mem acc.2 n with
          | some cur => Except.ok (acc.1 ++ [cur], cur)
          | none => Except.error (PyErr.attributeError n) : Except PyErr (List PyVal × PyVal)))
        (acc, PyVal.mock r p) = Except.ok res by
    obtain ⟨res, hres⟩ := hgen qualname.dropLast [] 0 []
    rw [hres]
    exact ⟨res.1, rfl⟩
  intro names
  induction names with
  | nil => intro acc r p; exact ⟨(acc, .mock r p), rfl⟩
  | cons n t ih =>
    intro acc r p
    have hga : getAttr env mem (.mock r p) n = some (.mock r (p ++ [n])) := by
      simp only [getAttr, getAttrOnMock, hmock r p n]
    simp only [List.foldlM_cons, hga]
    obtain ⟨res, hres⟩ := ih (acc ++ [.mock r (p ++ [n])]) r (p ++ [n])
    exact ⟨res, hres⟩

theorem sess1_mock_none (cfg : RPConfig) :
    ∀ r p nn, (sess1 cfg).mem (.mockAttr r p nn) = none := by
  intro r p nn
  unfold sess1 applyPatch sess0
  simp only []
  rw [if_neg (by intro hcon; cases hcon)]
  rfl

theorem includeStep_flat (env : PatchEnv) (s : Sess) (p n : String)
    (hdotp : hasDot p = false) (hne : p ≠ n) :
    ∃ s', includeStep env s p = .ok s' ∧
      s'.mem (.moduleAttr n) = s.mem (.moduleAttr n) := by
  have hsp : splitDot p = [p] := splitDot_of_not_hasDot p hdotp
  unfold includeStep
  rw [hsp]
  rw [show walkAttrs env s.mem PyVal.module ([p] : List String).dropLast
      = Except.ok PyVal.module from rfl]
  show ∃ s',
    (if (match getAttr env s.mem PyVal.module (([p] : List String).getLastD p) with
        | some w => isMockVal env w
        | none => false) = true then Except.ok s
      else Except.ok (applyPatch (freshMock s).2
        (attrLoc PyVal.module (([p] : List String).getLastD p)) (freshMock s).1))
      = Except.ok s' ∧ s'.mem (.moduleAttr n) = s.mem (.moduleAttr n)
  by_cases hc : (match getAttr env s.mem PyVal.module (([p] : List String).getLastD p) with
      | some w => isMockVal env w
      | none => false) = true
  · rw [if_pos hc]
    exact ⟨s, rfl, rfl⟩
  · rw [if_neg hc]
    refine ⟨_, rfl, ?_⟩
    refine applyPatch_mem_other ?_ _
    intro hcon
    have : Loc.moduleAttr n = attrLoc PyVal.module (([p] : List String).getLastD p) := hcon
    rw [show (([p] : List String).getLastD p) = p from rfl] at this
    injection this with h3
    exact hne h3.symm

theorem excludeFoldFlat (env : PatchEnv) (plist : List PyVal) (s4 : Sess)
    (qn : String) (w : PyVal)
    (hsplit : splitDot qn = [qn]) (hmem : s4.mem (.moduleAttr qn) = some w) :
    List.foldlM (excludePathStep env plist) (s4, ([] : List (ExclKey × CallableDTO))) [qn]
      = .error (.valueError "len(exclude_identifiers)<2") := by
  have hget : getattrByPath env s4.mem PyVal.module qn = Except.ok w := by
    unfold getattrByPath
    rw [hsplit]
    unfold walkAttrs
    simp only [List.foldlM_cons, List.foldlM_nil]
    rw [show getAttr env s4.mem PyVal.module qn = s4.mem (.moduleAttr qn) from rfl, hmem]
    rfl
  have hstep : excludePathStep env plist (s4, []) qn
      = .error (.valueError "len(exclude_identifiers)<2") := by
    unfold excludePathStep
    rw [hget, hsplit]
    show (if ([qn] : List String).length < 2 then
        (Except.error (PyErr.valueError "len(exclude_identifiers)<2")
          : Except PyErr (Sess × List (ExclKey × CallableDTO)))
      else if plist.length ≠ 0 then
        excludeWalk env plist w qn ([qn] : List String).length 0 (PyVal.mock 0 []) [qn] (s4, [])
      else Except.ok (s4, []))
      = Except.error (PyErr.valueError "len(exclude_identifiers)<2")
    rw [if_pos (by simp)]
  simp only [List.foldlM_cons, hstep]
  rfl

theorem objectExcludeFlatError (env : PatchEnv) (cfg : RPConfig) (qn : String)
    (hex : cfg.excludeSet = [.obj (some qn)])
    (hqn : qn ≠ "") (hdot : hasDot qn = false)
    (hinc : cfg.includeSet = [])
    (hfound : (cfg.dict.find? (fun p => p.1 = qn)).isSome = true) :
    rpSession env cfg = .error (.valueError "len(exclude_identifiers)<2") := by
  have hsplit : splitDot qn = [qn] := splitDot_of_not_hasDot qn hdot
  have hobj : getExcludeObjectPath (some qn) = Except.ok qn := by
    unfold getExcludeObjectPath
    show (if qn = "" then Except.error
        (PyErr.valueError "exclude_object does not have attribute `__qualname__")
      else Except.ok qn) = Except.ok qn
    rw [if_neg hqn]
  have hmapm : mapExcludeObjectPaths [some qn] = Except.ok [qn] := by
    simp [mapExcludeObjectPaths, hobj]
  have hie : initExclusions cfg.excludeSet = Except.ok ⟨[], [], [], [qn], [qn]⟩ := by
    rw [hex]
    unfold initExclusions
    rw [show ([ExcludeEntry.obj (some qn)].filterMap
        (fun e => match e with | .obj q => some q | .str _ => none)) = [some qn] from rfl]
    simp only [hmapm]
    show Except.ok _ = _
    simp [hsplit]
  have hst : rpInit cfg
      = Except.ok { includeEff := ["id"], ex := ⟨[], [], [], [qn], [qn]⟩ } := by
    unfold rpInit
    rw [hie, hinc]
    rfl
  unfold rpSession
  rw [hst]
  show rpEnter env cfg { includeEff := ["id"], ex := ⟨[], [], [], [qn], [qn]⟩ } = _
  unfold rpEnter
  simp only []
  obtain ⟨plist, hpl⟩ :=
    getPatchingList_ok env (sess1 cfg).mem (sess1_mock_none cfg) cfg.funcQualname
  simp only [hpl]
  obtain ⟨kw, hkw⟩ := Option.isSome_iff_exists.mp hfound
  have hsess1 : (sess1 cfg).mem (.moduleAttr qn) = some kw.2 := by
    unfold sess1 applyPatch sess0
    simp only []
    rw [if_neg (by intro hcon; cases hcon)]
    show (cfg.dict.find? (fun p => p.1 = qn)).map Prod.snd = some kw.2
    rw [hkw]
    rfl
  have hs3 : (patchModuleIdentifiers env cfg ⟨[], [], [], [qn], [qn]⟩ ["id"] plist
      (getArgsAndCallable env cfg.func plist (sess1 cfg)).2).mem (.moduleAttr qn)
      = some kw.2 := by
    unfold patchModuleIdentifiers
    rw [moduleFold_mem_excluded env cfg _ _ plist qn (by simp) cfg.dict _]
    rw [(getArgsAndCallable_fields env cfg.func plist (sess1 cfg)).1, hsess1]
  by_cases hqid : qn = "id"
  · have hfil : (["id"] : List String).filter
        (fun p => p ∉ ([] : List String) ++ [] ++ [qn]) = [] := by
      subst hqid
      decide
    have hpis : patchIncludeSet env ⟨[], [], [], [qn], [qn]⟩ ["id"]
        (patchModuleIdentifiers env cfg ⟨[], [], [], [qn], [qn]⟩ ["id"] plist
          (getArgsAndCallable env cfg.func plist (sess1 cfg)).2)
        = .ok (patchModuleIdentifiers env cfg ⟨[], [], [], [qn], [qn]⟩ ["id"] plist
          (getArgsAndCallable env cfg.func plist (sess1 cfg)).2) := by
      unfold patchIncludeSet
      rw [hfil]
      rfl
    simp only [hpis]
    simp only [show allExcludePaths ⟨[], [], [], [qn], [qn]⟩ = [qn] by simp [allExcludePaths]]
    simp only [excludeFoldFlat env plist _ qn kw.2 hsplit hs3]
  · have hfil : (["id"] : List String).filter
        (fun p => p ∉ ([] : List String) ++ [] ++ [qn]) = ["id"] := by
      have hmemid : ("id" : String) ∉ ([] : List String) ++ [] ++ [qn] := by
        simp only [List.nil_append, List.mem_singleton]
        exact fun hcon => hqid hcon.symm
      simp only [List.filter, decide_eq_true (hmemid)]
    obtain ⟨s4, hs4eq, hs4mem⟩ := includeStep_flat env
      (patchModuleIdentifiers env cfg ⟨[], [], [], [qn], [qn]⟩ ["id"] plist
        (getArgsAndCallable env cfg.func plist (sess1 cfg)).2) "id" qn (by decide)
      (fun hcon => hqid hcon.symm)
    have hpis : patchIncludeSet env ⟨[], [], [], [qn], [qn]⟩ ["id"]
        (patchModuleIdentifiers env cfg ⟨[], [], [], [qn], [qn]⟩ ["id"] plist
          (getArgsAndCallable env cfg.func plist (sess1 cfg)).2) = .ok s4 := by
      unfold patchIncludeSet
      rw [hfil]
      simp only [List.foldlM_cons, hs4eq, List.foldlM_nil]
      rfl
    simp only [hpis]
    simp only [show allExcludePaths ⟨[], [], [], [qn], [qn]⟩ = [qn] by simp [allExcludePaths]]
    simp only [excludeFoldFlat env plist s4 qn kw.2 hsplit (by rw [hs4mem, hs3])]

/-- C9.  An exclude-set entry given as a direct object reference whose
qualified name contains no dot (such as a module-level function excluded
by object) makes session entry raise
`ValueError('len(exclude_identifiers)<2')`, even though the object exposes
a qualified name that resolves against the module: object-based exclusion
only succeeds for callables nested inside at least one class. -/
theorem c9_object_exclude_flat_qualname (env : PatchEnv) (cfg : RPConfig) (qn : String)
    (hex : cfg.excludeSet = [.obj (some qn)])
    (hqn : qn ≠ "") (hdot : hasDot qn = false)
    (hinc : cfg.includeSet = [])
    (hfound : (cfg.dict.find? (fun p => p.1 = qn)).isSome = true) :
    rpSession env cfg = .error (.valueError "len(exclude_identifiers)<2") :=
  objectExcludeFlatError env cfg qn hex hqn hdot hinc hfound

def cfgC9 : RPConfig :=
  { dict := [("free_func", .real ["free_func"])]
    func := .real ["free_func"]
    funcQualname := ["free_func"]
    includeSet := []
    excludeSet := [.obj (some "free_func")] }

theorem c9_object_exclude_flat_qualname_witness :
    rpSession envC3 cfgC9 = .error (.valueError "len(exclude_identifiers)<2") :=
  c9_object_exclude_flat_qualname envC3 cfgC9 "free_func" rfl (by decide) (by decide)
    rfl (by decide)


-- Construction-time configuration errors (`_get_exclude_object_path` via
-- `_init_exclusions`, called from `__init__`).

theorem mapExcludeObjectPaths_error :
    ∀ (objs : List (Option String)),
      ((∃ e, mapExcludeObjectPaths objs = .error e) ↔
        ∃ q ∈ objs, q = none ∨ q = some "") ∧
      (∀ e, mapExcludeObjectPaths objs = .error e →
        e = .valueError "exclude_object does not have attribute `__qualname__") := by
  intro objs
  induction objs with
  | nil =>
    refine ⟨⟨?_, ?_⟩, ?_⟩
    · intro ⟨e, he⟩
      cases he
    · intro ⟨q, hq, _⟩
      cases hq
    · intro e he
      cases he
  | cons q t ih =>
    cases q with
    | none =>
      have hmap : mapExcludeObjectPaths (none :: t)
          = .error (.valueError "exclude_object does not have attribute `__qualname__") := rfl
      refine ⟨⟨?_, ?_⟩, ?_⟩
      · intro _
        exact ⟨none, by simp, Or.inl rfl⟩
      · intro _
        exact ⟨_, hmap⟩
      · intro e he
        rw [hmap] at he
        injection he with h1
        exact h1.symm
    | some s =>
      by_cases hs : s = ""
      · subst hs
        have hmap : mapExcludeObjectPaths (some "" :: t)
            = .error (.valueError "exclude_object does not have attribute `__qualname__") := rfl
        refine ⟨⟨?_, ?_⟩, ?_⟩
        · intro _
          exact ⟨some "", by simp, Or.inr rfl⟩
        · intro _
          exact ⟨_, hmap⟩
        · intro e he
          rw [hmap] at he
          injection he with h1
          exact h1.symm
      · have hobj : getExcludeObjectPath (some s) = Except.ok s := by
          unfold getExcludeObjectPath
          show (if s = "" then Except.error
              (PyErr.valueError "exclude_object does not have attribute `__qualname__")
            else Except.ok s) = Except.ok s
          rw [if_neg hs]
        have hmap0 : mapExcludeObjectPaths (some s :: t)
            = (match getExcludeObjectPath (some s) with
               | .error e => .error e
               | .ok p =>
                 match mapExcludeObjectPaths t with
                 | .error e => .error e
                 | .ok ps => .ok (p :: ps)) := rfl
        have hmap : mapExcludeObjectPaths (some s :: t)
            = (match mapExcludeObjectPaths t with
               | .error e => .error e
               | .ok ps => .ok (s :: ps)) := by
          rw [hmap0, hobj]
        refine ⟨⟨?_, ?_⟩, ?_⟩
        · intro ⟨e, he⟩
          rw [hmap] at he
          revert he
          cases hmt : mapExcludeObjectPaths t with
          | error e2 =>
            intro _
            obtain ⟨q2, hq2, hbad⟩ := ih.1.mp ⟨e2, hmt⟩
            exact ⟨q2, by simp [hq2], hbad⟩
          | ok ps =>
            intro he
            cases he
        · intro ⟨q2, hq2, hbad⟩
          simp only [List.mem_cons] at hq2
          rcases hq2 with hq2 | hq2
          · exfalso
            subst hq2
            rcases hbad with hbad | hbad
            · cases hbad
            · injection hbad with h1
              exact hs h1
          · obtain ⟨e2, he2⟩ := ih.1.mpr ⟨q2, hq2, hbad⟩
            refine ⟨e2, ?_⟩
            rw [hmap, he2]
        · intro e he
          rw [hmap] at he
          revert he
          cases hmt : mapExcludeObjectPaths t with
          | error e2 =>
            intro he
            injection he with h1
            subst h1
            exact ih.2 _ hmt
          | ok ps =>
            intro he
            cases he

/-- The object excludes extracted by `_init_exclusions` are exactly the
`.obj` entries of the exclude set. -/
theorem mem_objExtract (excl : List ExcludeEntry) (q : Option String) :
    q ∈ excl.filterMap (fun e => match e with | .obj q => some q | .str _ => none)
      ↔ ExcludeEntry.obj q ∈ excl := by
  rw [List.mem_filterMap]
  constructor
  · rintro ⟨a, ha, hfa⟩
    cases a with
    | str s => cases hfa
    | obj q2 =>
      have h1 : q2 = q := by
        injection hfa
      subst h1
      exact ha
  · intro h
    exact ⟨.obj q, h, rfl⟩

/-- `_init_exclusions` raises exactly when qualname resolution of the
object excludes raises, with the same error. -/
theorem initExclusions_error (excl : List ExcludeEntry) (e : PyErr) :
    initExclusions excl = .error e ↔
      mapExcludeObjectPaths (excl.filterMap (fun x => match x with
        | .obj q => some q | .str _ => none)) = .error e := by
  cases hmt : mapExcludeObjectPaths (excl.filterMap (fun x => match x with
      | .obj q => some q | .str _ => none)) with
  | error e2 =>
    have hi : initExclusions excl = .error e2 := by
      unfold initExclusions
      simp only [hmt]
      rfl
    rw [hi]
    constructor
    · intro h
      injection h with h1
      rw [h1]
    · intro h
      injection h with h1
      rw [h1]
  | ok ps =>
    have hi : ∃ r, initExclusions excl = .ok r := by
      unfold initExclusions
      simp only [hmt]
      exact ⟨_, rfl⟩
    obtain ⟨r, hr⟩ := hi
    rw [hr]
    constructor
    · intro h
      cases h
    · intro h
      cases h

/-- `ReversePatch.__init__` raises exactly when `_init_exclusions` raises,
with the same error. -/
theorem rpInit_error (cfg : RPConfig) (e : PyErr) :
    rpInit cfg = .error e ↔ initExclusions cfg.excludeSet = .error e := by
  cases hmt : initExclusions cfg.excludeSet with
  | error e2 =>
    have hi : rpInit cfg = .error e2 := by
      unfold rpInit
      simp only [hmt]
      rfl
    rw [hi]
    constructor
    · intro h
      injection h with h1
      rw [h1]
    · intro h
      injection h with h1
      rw [h1]
  | ok st =>
    have hi : ∃ r, rpInit cfg = .ok r := by
      unfold rpInit
      simp only [hmt]
      exact ⟨_, rfl⟩
    obtain ⟨r, hr⟩ := hi
    rw [hr]
    constructor
    · intro h
      cases h
    · intro h
      cases h

/-- C8 (amended).  The engine's own configuration error — the
missing-`__qualname__` `ValueError` — arises at CONSTRUCTION
(`ReversePatch.__init__` via `_init_exclusions`), not at session entry:
construction fails exactly when some exclude-set entry given as a direct
object reference lacks a resolvable qualified name (`__qualname__` absent
or the empty string); when it fails, the error is always that one
`ValueError`; and the construction error propagates unchanged to the
session.  The original claim's "exactly one kind of error, at entry, if
and only if" is refuted by the counterexample: entry itself can raise a
different `ValueError` for an object exclude whose qualified name is
present and resolvable but dot-free. -/
theorem c8_config_error (cfg : RPConfig) :
    ((∃ e, rpInit cfg = .error e) ↔
       ∃ q, ExcludeEntry.obj q ∈ cfg.excludeSet ∧ (q = none ∨ q = some "")) ∧
    (∀ e, rpInit cfg = .error e →
       e = .valueError "exclude_object does not have attribute `__qualname__") ∧
    (∀ env e, rpInit cfg = .error e → rpSession env cfg = .error e) := by
  refine ⟨⟨?_, ?_⟩, ?_, ?_⟩
  · rintro ⟨e, he⟩
    have hm2 := (initExclusions_error cfg.excludeSet e).mp ((rpInit_error cfg e).mp he)
    obtain ⟨q, hq, hbad⟩ := (mapExcludeObjectPaths_error _).1.mp ⟨e, hm2⟩
    exact ⟨q, (mem_objExtract _ q).mp hq, hbad⟩
  · rintro ⟨q, hq, hbad⟩
    obtain ⟨e, he⟩ := (mapExcludeObjectPaths_error
        (cfg.excludeSet.filterMap (fun x => match x with
          | .obj q => some q | .str _ => none))).1.mpr
      ⟨q, (mem_objExtract _ q).mpr hq, hbad⟩
    exact ⟨e, (rpInit_error cfg e).mpr ((initExclusions_error _ e).mpr he)⟩
  · intro e he
    exact (mapExcludeObjectPaths_error _).2 e
      ((initExclusions_error _ e).mp ((rpInit_error cfg e).mp he))
  · intro env e he
    unfold rpSession
    rw [he]

/-- A configuration with an object exclude that lacks `__qualname__`. -/
def cfgC8bad : RPConfig :=
  { dict := [("free_func", .real ["free_func"])]
    func := .real ["free_func"]
    funcQualname := ["free_func"]
    includeSet := []
    excludeSet := [.obj none] }

theorem c8_config_error_witness :
    (∃ q, ExcludeEntry.obj q ∈ cfgC8bad.excludeSet ∧ (q = none ∨ q = some "")) ∧
    rpSession envC3 cfgC8bad
      = .error (.valueError "exclude_object does not have attribute `__qualname__") := by
  have hq : ∃ q, ExcludeEntry.obj q ∈ cfgC8bad.excludeSet ∧ (q = none ∨ q = some "") :=
    ⟨none, List.mem_singleton.mpr rfl, Or.inl rfl⟩
  obtain ⟨e, he⟩ := (c8_config_error cfgC8bad).1.mpr hq
  have hu := (c8_config_error cfgC8bad).2.1 e he
  subst hu
  exact ⟨hq, (c8_config_error cfgC8bad).2.2 envC3 _ he⟩

/-- A configuration whose only exclude is an object with a present,
non-empty, resolvable — but dot-free — qualified name. -/
def cfgC8 : RPConfig :=
  { dict := [("free_func", .real ["free_func"])]
    func := .real ["free_func"]
    funcQualname := ["free_func"]
    includeSet := []
    excludeSet := [.obj (some "free_func")] }

/-- C8 counterexample to the original statement: every object exclude of
`cfgC8` has a present, non-empty qualified name that resolves in the
module's namespace, construction succeeds, and yet session entry raises —
with an error different from the configuration error. -/
theorem c8_counterexample :
    (∀ q, ExcludeEntry.obj q ∈ cfgC8.excludeSet →
       ∃ s, q = some s ∧ s ≠ "" ∧ (cfgC8.dict.find? (fun p => p.1 = s)).isSome = true) ∧
    (rpInit cfgC8).toOption.isSome = true ∧
    rpSession envC3 cfgC8 = .error (.valueError "len(exclude_identifiers)<2") ∧
    PyErr.valueError "len(exclude_identifiers)<2"
      ≠ PyErr.valueError "exclude_object does not have attribute `__qualname__" := by
  refine ⟨?_, by decide, ?_, by decide⟩
  · intro q hq
    have h1 : ExcludeEntry.obj q = ExcludeEntry.obj (some "free_func") :=
      List.mem_singleton.mp hq
    have h2 : q = some "free_func" := by
      injection h1
    exact ⟨"free_func", h2, by decide, by decide⟩
  · exact objectExcludeFlatError envC3 cfgC8 "free_func" rfl (by decide) (by decide)
      rfl (by decide)

-- C10: a free-function target (empty nesting chain) makes the exclusion
-- application phase a no-op.

theorem dropLast_of_short (l : List String) (h : l.length ≤ 1) : l.dropLast = [] := by
  cases l with
  | nil => rfl
  | cons a t =>
    cases t with
    | nil => rfl
    | cons b t2 =>
      exfalso
      simp only [List.length_cons] at h
      omega

/-- A qualname without enclosing classes yields the empty patching list. -/
theorem getPatchingList_nil (env : PatchEnv) (mem : Memory) (qualname : List String)
    (h : qualname.dropLast = []) :
    getPatchingList env mem qualname = .ok [] := by
  unfold getPatchingList
  rw [h]
  rfl

/-- With an empty patching list, every successful iteration of the
exclusion loop returns its accumulator unchanged (the
`if len(patching_list)` guard skips the whole walk). -/
theorem excludeFold_nil_plist (env : PatchEnv) :
    ∀ (paths : List String) (acc r : Sess × List (ExclKey × CallableDTO)),
      List.foldlM (excludePathStep env []) acc paths = .ok r → r = acc := by
  intro paths
  induction paths with
  | nil =>
    intro acc r h
    have h2 : Except.ok acc = (Except.ok r : Except PyErr (Sess × List (ExclKey × CallableDTO))) := h
    injection h2 with h1
    exact h1.symm
  | cons p t ih =>
    intro acc r h
    rw [List.foldlM_cons] at h
    revert h
    cases hstep : excludePathStep env [] acc p with
    | error e =>
      intro h
      cases h
    | ok acc2 =>
      intro h
      have hacc : acc2 = acc := by
        revert hstep
        unfold excludePathStep
        cases hget : getattrByPath env acc.1.mem .module p with
        | error e =>
          intro hstep
          cases hstep
        | ok w =>
          show (if (splitDot p).length < 2 then
              (Except.error (PyErr.valueError "len(exclude_identifiers)<2")
                : Except PyErr (Sess × List (ExclKey × CallableDTO)))
            else if List.length ([] : List PyVal) ≠ 0 then
              excludeWalk env [] w p (splitDot p).length 0 (PyVal.mock 0 []) (splitDot p) acc
            else Except.ok acc) = Except.ok acc2 → acc2 = acc
          by_cases hlen : (splitDot p).length < 2
          · rw [if_pos hlen]
            intro hstep
            cases hstep
          · rw [if_neg hlen]
            rw [if_neg (by decide : ¬(List.length ([] : List PyVal) ≠ 0))]
            intro hstep
            injection hstep with h1
            exact h1.symm
      subst hacc
      exact ih acc2 r h

/-- C10.  When the target is a module-level free function (a qualified name
with no enclosing-class segments, hence an empty patching list), the dotted
path and object exclusion-application phase is skipped entirely: the result
bundle's exclusions mapping is empty and the returned session state is
exactly the state produced by the include pass — the exclusion loop created
no intermediate-segment or leaf substitution records. -/
theorem c10_free_function_skips_exclusions (env : PatchEnv) (cfg : RPConfig)
    (hfree : cfg.funcQualname.length ≤ 1) (dto : RPDto) (s : Sess)
    (h : rpSession env cfg = .ok (dto, s)) :
    dto.exclusions = [] ∧
    ∃ st, rpInit cfg = .ok st ∧
      patchIncludeSet env st.ex st.includeEff
        (patchModuleIdentifiers env cfg st.ex st.includeEff []
          (getArgsAndCallable env cfg.func [] (sess1 cfg)).2) = .ok s := by
  unfold rpSession at h
  revert h
  cases hinit : rpInit cfg with
  | error e =>
    intro h
    cases h
  | ok st =>
    intro h
    unfold rpEnter at h
    simp only [getPatchingList_nil env (sess1 cfg).mem cfg.funcQualname
      (dropLast_of_short cfg.funcQualname hfree)] at h
    split at h
    · cases h
    · rename_i s4 hpis
      split at h
      · cases h
      · rename_i s5 excls hfold
        injection h with h1
        have hexc : excls = dto.exclusions := congrArg (fun q => q.1.exclusions) h1
        have hs : s5 = s := congrArg Prod.snd h1
        have hr := excludeFold_nil_plist env (allExcludePaths st.ex) (s4, []) (s5, excls) hfold
        have hs5 : s5 = s4 := congrArg Prod.fst hr
        have hexcls : excls = [] := congrArg Prod.snd hr
        constructor
        · rw [← hexc, hexcls]
        · refine ⟨st, rfl, ?_⟩
          rw [hpis, ← hs, hs5]

/-- An environment whose real module contains a class `A` with an attribute
`b` (the excluded path target). -/
def envC10 : PatchEnv :=
  { realGet := fun p n => if p = ["A"] ∧ n = "b" then some (.real ["A", "b"]) else none
    isExcClass := fun _ => false
    isMockInst := fun _ => false
    signatureParams := fun _ => []
    ismethod := fun _ => false
    dunderFunc := fun f => f }

/-- A session whose target is a module-level free function and whose exclude
set holds a resolvable two-segment dotted path. -/
def cfgC10 : RPConfig :=
  { dict := [("free_func", .real ["free_func"]), ("A", .real ["A"])]
    func := .real ["free_func"]
    funcQualname := ["free_func"]
    includeSet := []
    excludeSet := [.str "A.b"] }

theorem c10_free_function_skips_exclusions_witness :
    (rpSession envC10 cfgC10).toOption.map (fun p => p.1.exclusions) = some [] := by
  cases hh : rpSession envC10 cfgC10 with
  | error e =>
    exfalso
    have hok : (rpSession envC10 cfgC10).toOption.isSome = true := by decide
    rw [hh] at hok
    cases hok
  | ok p =>
    have h := c10_free_function_skips_exclusions envC10 cfgC10 (by decide) p.1 p.2
      (by rw [hh])
    simp only [Except.toOption, Option.map]
    rw [h.1]

-- C2: exclusion wins over inclusion.  Erasing an excluded identifier from
-- the include set changes neither the module pass (the identifier is
-- skipped through the exclusion first-segment sets either way) nor the
-- include pass (the set difference filters it out either way).

theorem filter_dedup_comm (q : String → Bool) :
    ∀ l : List String, (l.dedup).filter q = (l.filter q).dedup := by
  intro l
  induction l with
  | nil => rfl
  | cons a t ih =>
    by_cases hm : a ∈ t
    · rw [List.dedup_cons_of_mem hm, List.filter_cons]
      by_cases hq : q a = true
      · rw [if_pos hq, List.dedup_cons_of_mem (List.mem_filter.mpr ⟨hm, hq⟩)]
        exact ih
      · rw [if_neg hq]
        exact ih
    · rw [List.dedup_cons_of_not_mem hm, List.filter_cons, List.filter_cons]
      by_cases hq : q a = true
      · rw [if_pos hq, if_pos hq,
          List.dedup_cons_of_not_mem (fun hc => hm (List.mem_filter.mp hc).1), ih]
      · rw [if_neg hq, if_neg hq]
        exact ih

theorem filter_erase_of_false {q : String → Bool} {x : String} (hq : q x = false) :
    ∀ l : List String, (l.erase x).filter q = l.filter q := by
  intro l
  induction l with
  | nil => rfl
  | cons a t ih =>
    by_cases hax : a = x
    · subst hax
      rw [List.erase_cons_head, List.filter_cons, hq]
      simp
    · rw [List.erase_cons_tail (by simpa using hax), List.filter_cons, List.filter_cons, ih]

theorem mem_dedup_cons_erase {y x : String} (l : List String) (hne : y ≠ x) :
    y ∈ ("id" :: l).dedup ↔ y ∈ ("id" :: l.erase x).dedup := by
  simp [List.mem_dedup, List.mem_cons, List.mem_erase_of_ne hne]

/-- An excluded string lands in the identifier partition when it is
dot-free, in the dotted-path partition when it is dotted. -/
theorem initExclusions_ok_mem (excl : List ExcludeEntry) (ex : ExclSets) (x : String)
    (h : initExclusions excl = .ok ex) (hx : ExcludeEntry.str x ∈ excl) :
    (hasDot x = false → x ∈ ex.ids) ∧ (hasDot x = true → x ∈ ex.paths) := by
  have hxs : x ∈ excl.filterMap (fun e => match e with
      | .str s => some s | .obj _ => none) := by
    rw [List.mem_filterMap]
    exact ⟨.str x, hx, rfl⟩
  cases hmt : mapExcludeObjectPaths (excl.filterMap (fun e => match e with
      | .obj q => some q | .str _ => none)) with
  | error e =>
    have hi : initExclusions excl = .error e := by
      unfold initExclusions
      simp only [hmt]
      rfl
    rw [hi] at h
    cases h
  | ok ps =>
    have hi : initExclusions excl = .ok
        ⟨((excl.filterMap (fun e => match e with
            | .str s => some s | .obj _ => none)).filter (fun s => ¬ hasDot s)).dedup,
         ((excl.filterMap (fun e => match e with
            | .str s => some s | .obj _ => none)).filter hasDot).dedup,
         (((excl.filterMap (fun e => match e with
            | .str s => some s | .obj _ => none)).filter hasDot).map
              (fun s => (splitDot s).headD "")).dedup,
         ps.dedup,
         (ps.map (fun s => (splitDot s).headD "")).dedup⟩ := by
      unfold initExclusions
      simp only [hmt]
      rfl
    rw [hi] at h
    injection h with h1
    subst h1
    constructor
    · intro hd
      simp only [List.mem_dedup, List.mem_filter]
      exact ⟨hxs, by simp [hd]⟩
    · intro hd
      simp only [List.mem_dedup, List.mem_filter]
      exact ⟨hxs, hd⟩

/-- The tail of `__enter__` after the patching list has been built (split
out of `rpEnter` so the two phases that consult the include set can be
rewritten in place). -/
def rpEnterFrom (env : PatchEnv) (cfg : RPConfig) (ex : ExclSets) (incEff : List String)
    (plist : List PyVal) : Except PyErr (RPDto × Sess) :=
  match patchIncludeSet env ex incEff
      (patchModuleIdentifiers env cfg ex incEff plist
        (getArgsAndCallable env cfg.func plist (sess1 cfg)).2) with
  | .error e => .error e
  | .ok s4 =>
    match (allExcludePaths ex).foldlM (excludePathStep env plist) (s4, []) with
    | .error e => .error e
    | .ok (s5, excls) =>
      .ok ({ args := (getArgsAndCallable env cfg.func plist (sess1 cfg)).1.args
             c := (getArgsAndCallable env cfg.func plist (sess1 cfg)).1.c
             exclusions := excls }, s5)

theorem rpEnter_from (env : PatchEnv) (cfg : RPConfig) (st : RPState) :
    rpEnter env cfg st
      = match getPatchingList env (sess1 cfg).mem cfg.funcQualname with
        | .error e => .error e
        | .ok plist => rpEnterFrom env cfg st.ex st.includeEff plist := rfl

/-- One module-pass iteration is insensitive to include-set changes on
names that are excluded or whose membership is unchanged. -/
theorem moduleIdentifierStep_incEff (env : PatchEnv) (cfg : RPConfig) (ex : ExclSets)
    (E EP : List String) (plist : List PyVal) (nv : String × PyVal)
    (hnv : nv.1 ∈ ex.ids ++ ex.firstPath ++ ex.firstObjPath ∨ (nv.1 ∈ E ↔ nv.1 ∈ EP)) :
    ∀ s, moduleIdentifierStep env cfg ex E plist s nv
      = moduleIdentifierStep env cfg ex EP plist s nv := by
  intro s
  unfold moduleIdentifierStep
  by_cases h1 : nv.1 ∈ ex.ids ++ ex.firstPath ++ ex.firstObjPath
  · rw [if_pos h1, if_pos h1]
  · have hiff : nv.1 ∈ E ↔ nv.1 ∈ EP := hnv.resolve_left h1
    rw [if_neg h1, if_neg h1]
    by_cases h2 : strStartsWith nv.1 "__" = true ∧ nv.1 ∉ E
    · have hp : strStartsWith nv.1 "__" = true ∧ nv.1 ∉ EP :=
        ⟨h2.1, fun hc => h2.2 (hiff.mpr hc)⟩
      rw [if_pos h2, if_pos hp]
    · have hnp : ¬(strStartsWith nv.1 "__" = true ∧ nv.1 ∉ EP) :=
        fun hc => h2 ⟨hc.1, fun hm => hc.2 (hiff.mp hm)⟩
      rw [if_neg h2, if_neg hnp]

theorem patchModuleIdentifiers_incEff (env : PatchEnv) (cfg : RPConfig) (ex : ExclSets)
    (E EP : List String)
    (hmem : ∀ nv ∈ cfg.dict,
      nv.1 ∈ ex.ids ++ ex.firstPath ++ ex.firstObjPath ∨ (nv.1 ∈ E ↔ nv.1 ∈ EP))
    (plist : List PyVal) (s : Sess) :
    patchModuleIdentifiers env cfg ex E plist s
      = patchModuleIdentifiers env cfg ex EP plist s := by
  unfold patchModuleIdentifiers
  exact List.foldl_ext _ _ s
    (fun a nv hb => moduleIdentifierStep_incEff env cfg ex E EP plist nv (hmem nv hb) a)

theorem rpEnterFrom_incEff (env : PatchEnv) (cfg : RPConfig) (ex : ExclSets)
    (E EP : List String) (plist : List PyVal)
    (hmem : ∀ nv ∈ cfg.dict,
      nv.1 ∈ ex.ids ++ ex.firstPath ++ ex.firstObjPath ∨ (nv.1 ∈ E ↔ nv.1 ∈ EP))
    (hfilter : E.filter (fun p => decide (p ∉ ex.ids ++ ex.paths ++ ex.objPaths))
      = EP.filter (fun p => decide (p ∉ ex.ids ++ ex.paths ++ ex.objPaths))) :
    rpEnterFrom env cfg ex E plist = rpEnterFrom env cfg ex EP plist := by
  have hA := patchModuleIdentifiers_incEff env cfg ex E EP hmem plist
    (getArgsAndCallable env cfg.func plist (sess1 cfg)).2
  have hB : ∀ X, patchIncludeSet env ex E X = patchIncludeSet env ex EP X := by
    intro X
    unfold patchIncludeSet
    rw [hfilter]
  unfold rpEnterFrom
  rw [hA, hB]

/-- C2.  For an identifier present in the exclude set (as a bare identifier
or a dotted path), erasing it from the include set changes nothing about
the session: the include pass operates on the include set minus all
exclude partitions, and the module pass skips every excluded name, so
inclusion has no effect for an excluded identifier.  (Module `__dict__`
keys are identifiers, hence dot-free.) -/
theorem c2_exclusion_precedence (env : PatchEnv) (cfg : RPConfig) (x : String)
    (hx : ExcludeEntry.str x ∈ cfg.excludeSet)
    (hdict : ∀ nv ∈ cfg.dict, hasDot nv.1 = false) :
    rpSession env cfg
      = rpSession env { cfg with includeSet := cfg.includeSet.erase x } := by
  unfold rpSession
  cases hie : initExclusions cfg.excludeSet with
  | error e =>
    have h1 : rpInit cfg = .error e := by
      unfold rpInit
      simp only [hie]
      rfl
    have h2 : rpInit { cfg with includeSet := cfg.includeSet.erase x } = .error e := by
      unfold rpInit
      simp only [hie]
      rfl
    rw [h1, h2]
  | ok ex =>
    have h1 : rpInit cfg = .ok ⟨("id" :: cfg.includeSet).dedup, ex⟩ := by
      unfold rpInit
      simp only [hie]
      rfl
    have h2 : rpInit { cfg with includeSet := cfg.includeSet.erase x }
        = .ok ⟨("id" :: cfg.includeSet.erase x).dedup, ex⟩ := by
      unfold rpInit
      simp only [hie]
      rfl
    rw [h1, h2]
    show rpEnter env cfg ⟨("id" :: cfg.includeSet).dedup, ex⟩
      = rpEnter env { cfg with includeSet := cfg.includeSet.erase x }
          ⟨("id" :: cfg.includeSet.erase x).dedup, ex⟩
    have hswap : rpEnter env { cfg with includeSet := cfg.includeSet.erase x }
        ⟨("id" :: cfg.includeSet.erase x).dedup, ex⟩
        = rpEnter env cfg ⟨("id" :: cfg.includeSet.erase x).dedup, ex⟩ := rfl
    rw [hswap, rpEnter_from env cfg ⟨("id" :: cfg.includeSet).dedup, ex⟩,
        rpEnter_from env cfg ⟨("id" :: cfg.includeSet.erase x).dedup, ex⟩]
    cases hpl : getPatchingList env (sess1 cfg).mem cfg.funcQualname with
    | error e => rfl
    | ok plist =>
      show rpEnterFrom env cfg ex (("id" :: cfg.includeSet).dedup) plist
        = rpEnterFrom env cfg ex (("id" :: cfg.includeSet.erase x).dedup) plist
      have hparts := initExclusions_ok_mem cfg.excludeSet ex x hie hx
      apply rpEnterFrom_incEff
      · intro nv hnv
        by_cases hnx : nv.1 = x
        · have hdx : hasDot x = false := by
            rw [← hnx]
            exact hdict nv hnv
          left
          rw [hnx]
          exact List.mem_append.mpr (Or.inl (List.mem_append.mpr (Or.inl (hparts.1 hdx))))
        · right
          exact mem_dedup_cons_erase cfg.includeSet hnx
      · have hmemx : x ∈ ex.ids ++ ex.paths ++ ex.objPaths := by
          cases hdx : hasDot x with
          | false =>
            exact List.mem_append.mpr
              (Or.inl (List.mem_append.mpr (Or.inl (hparts.1 hdx))))
          | true =>
            exact List.mem_append.mpr
              (Or.inl (List.mem_append.mpr (Or.inr (hparts.2 hdx))))
        have hqx : (fun p => decide (p ∉ ex.ids ++ ex.paths ++ ex.objPaths)) x = false :=
          decide_eq_false_iff_not.mpr (not_not_intro hmemx)
        rw [filter_dedup_comm, filter_dedup_comm, List.filter_cons, List.filter_cons,
          filter_erase_of_false hqx]

/-- A session whose include set and exclude set share the identifier
`helper`. -/
def cfgC2 : RPConfig :=
  { dict := [("free_func", .real ["free_func"]), ("helper", .real ["helper"])]
    func := .real ["free_func"]
    funcQualname := ["free_func"]
    includeSet := ["helper"]
    excludeSet := [.str "helper"] }

theorem c2_exclusion_precedence_witness :
    rpSession envC10 cfgC2
      = rpSession envC10 { cfgC2 with includeSet := cfgC2.includeSet.erase "helper" } :=
  c2_exclusion_precedence envC10 cfgC2 "helper" (by decide) (by decide)

-- C4: the `__init__` leaf of an excluded path gets the original installed
-- under `m__init__` and a separate exclusion bundle keyed by both the
-- object and the dotted path; other leaves get the original restored.

theorem applyPatch_mem_self (s : Sess) (l : Loc) (v : PyVal) :
    (applyPatch s l v).mem l = some v := by
  show (if l = l then some v else s.mem l) = some v
  rw [if_pos rfl]

theorem find?_map_set (k : ExclKey) (v : CallableDTO) :
    ∀ m : List (ExclKey × CallableDTO),
      (m.map (fun p => if p.1 = k then (k, v) else p)).find? (fun p => p.1 = k)
        = (m.find? (fun p => p.1 = k)).map (fun _ => (k, v)) := by
  intro m
  induction m with
  | nil => rfl
  | cons a t ih =>
    by_cases ha : a.1 = k
    · rw [List.map_cons, if_pos ha]
      rw [List.find?_cons_of_pos _ (by simp), List.find?_cons_of_pos _ (by simpa using ha)]
      rfl
    · rw [List.map_cons, if_neg ha]
      rw [List.find?_cons_of_neg _ (by simpa using ha),
        List.find?_cons_of_neg _ (by simpa using ha), ih]

theorem find?_map_set_other (k k2 : ExclKey) (v : CallableDTO) (hne : k2 ≠ k) :
    ∀ m : List (ExclKey × CallableDTO),
      (m.map (fun p => if p.1 = k then (k, v) else p)).find? (fun p => p.1 = k2)
        = m.find? (fun p => p.1 = k2) := by
  intro m
  induction m with
  | nil => rfl
  | cons a t ih =>
    by_cases ha : a.1 = k
    · have hk2 : ¬ (a.1 = k2) := fun h => hne (ha.symm.trans h).symm
      rw [List.map_cons, if_pos ha]
      rw [List.find?_cons_of_neg _ (by simpa using fun h => hne h.symm),
        List.find?_cons_of_neg _ (by simpa using hk2), ih]
    · rw [List.map_cons, if_neg ha]
      by_cases ha2 : a.1 = k2
      · rw [List.find?_cons_of_pos _ (by simpa using ha2),
          List.find?_cons_of_pos _ (by simpa using ha2)]
      · rw [List.find?_cons_of_neg _ (by simpa using ha2),
          List.find?_cons_of_neg _ (by simpa using ha2), ih]

/-- Python dict law: after `m[k] = v`, `m[k]` is `v`. -/
theorem dictGet_dictSet_self (m : List (ExclKey × CallableDTO)) (k : ExclKey)
    (v : CallableDTO) : dictGet (dictSet m k v) k = some v := by
  unfold dictSet
  by_cases hf : (m.find? (fun p => p.1 = k)).isSome = true
  · rw [if_pos hf]
    unfold dictGet
    rw [find?_map_set]
    obtain ⟨a, ha⟩ := Option.isSome_iff_exists.mp hf
    rw [ha]
    rfl
  · rw [if_neg hf]
    unfold dictGet
    rw [List.find?_append]
    have hnone : m.find? (fun p => p.1 = k) = none := by
      cases hm : m.find? (fun p => p.1 = k) with
      | none => rfl
      | some a =>
        rw [hm] at hf
        exact absurd rfl hf
    rw [hnone]
    show ((List.find? (fun p => p.1 = k) [(k, v)])).map Prod.snd = some v
    rw [List.find?_cons_of_pos _ (by simp)]
    rfl

/-- Python dict law: after `m[k] = v`, lookup under a different key is
unchanged. -/
theorem dictGet_dictSet_other (m : List (ExclKey × CallableDTO)) (k k2 : ExclKey)
    (v : CallableDTO) (hne : k2 ≠ k) : dictGet (dictSet m k v) k2 = dictGet m k2 := by
  unfold dictSet
  by_cases hf : (m.find? (fun p => p.1 = k)).isSome = true
  · rw [if_pos hf]
    unfold dictGet
    rw [find?_map_set_other k k2 v hne]
  · rw [if_neg hf]
    unfold dictGet
    rw [List.find?_append]
    have h1 : List.find? (fun p => p.1 = k2) [(k, v)] = none := by
      rw [List.find?_cons_of_neg _ (by simpa using fun h => hne h.symm)]
      rfl
    rw [h1]
    cases m.find? (fun p => p.1 = k2) <;> rfl

/-- C4.  The final-segment iteration of the exclusion walk: when the leaf
is the reserved initializer name `__init__`, the original initializer is
installed under the alternate name `m__init__` on the shadow parent, and a
separate `CallableDTO` — built by `_get_args_and_callable` with the shadow
parent as the sole chain entry — is recorded in the exclusions mapping
addressable both by the original callable object and by the dotted-path
string; a leaf with any other name instead has the real original object
restored at that leaf and the exclusions mapping is unchanged. -/
theorem c4_init_exclusion_bundle (env : PatchEnv) (plist : List PyVal)
    (exObj current parent : PyVal) (xpath leaf : String) (nTotal idx : Nat)
    (s : Sess) (excls : List (ExclKey × CallableDTO))
    (hcur : getAttr env s.mem parent leaf = some current)
    (hnskip : ¬(plist.length > idx ∧ plist.get? idx = some current))
    (hidx : ¬ idx < nTotal - 1) :
    (leaf = "__init__" →
      excludeWalk env plist exObj xpath nTotal idx parent [leaf] (s, excls)
        = .ok (applyPatch (getArgsAndCallable env exObj [parent] s).2
                 (attrLoc parent "m__init__") exObj,
               dictSet (dictSet excls (.byObj exObj)
                   (getArgsAndCallable env exObj [parent] s).1)
                 (.byPath xpath) (getArgsAndCallable env exObj [parent] s).1) ∧
      dictGet (dictSet (dictSet excls (.byObj exObj)
            (getArgsAndCallable env exObj [parent] s).1)
          (.byPath xpath) (getArgsAndCallable env exObj [parent] s).1)
          (.byPath xpath) = some (getArgsAndCallable env exObj [parent] s).1 ∧
      (dictGet excls (.byObj exObj) = none →
        dictGet (dictSet (dictSet excls (.byObj exObj)
              (getArgsAndCallable env exObj [parent] s).1)
            (.byPath xpath) (getArgsAndCallable env exObj [parent] s).1)
            (.byObj exObj) = some (getArgsAndCallable env exObj [parent] s).1) ∧
      (applyPatch (getArgsAndCallable env exObj [parent] s).2
          (attrLoc parent "m__init__") exObj).mem (attrLoc parent "m__init__")
        = some exObj) ∧
    (leaf ≠ "__init__" →
      excludeWalk env plist exObj xpath nTotal idx parent [leaf] (s, excls)
        = .ok (applyPatch s (attrLoc parent leaf) exObj, excls) ∧
      (applyPatch s (attrLoc parent leaf) exObj).mem (attrLoc parent leaf)
        = some exObj) := by
  have h0 : excludeWalk env plist exObj xpath nTotal idx parent (leaf :: []) (s, excls)
      = (match getAttr env s.mem parent leaf with
         | none => .error (.attributeError leaf)
         | some current =>
           if plist.length > idx ∧ plist.get? idx = some current then
             excludeWalk env plist exObj xpath nTotal (idx + 1) current [] (s, excls)
           else if idx < nTotal - 1 then
             excludeWalk env plist exObj xpath nTotal (idx + 1) current []
               (applyPatch s (attrLoc parent leaf) current, excls)
           else if leaf = "__init__" then
             excludeWalk env plist exObj xpath nTotal (idx + 1) current []
               (applyPatch (getArgsAndCallable env exObj [parent] s).2
                  (attrLoc parent ("m" ++ leaf)) exObj,
                dictSet (dictSet excls (.byObj exObj)
                    (getArgsAndCallable env exObj [parent] s).1)
                  (.byPath xpath) (getArgsAndCallable env exObj [parent] s).1)
           else
             excludeWalk env plist exObj xpath nTotal (idx + 1) current []
               (applyPatch s (attrLoc parent leaf) exObj, excls)) := rfl
  constructor
  · intro hleaf
    subst hleaf
    refine ⟨?_, dictGet_dictSet_self _ _ _, ?_, applyPatch_mem_self _ _ _⟩
    · rw [h0]
      simp only [hcur]
      rw [if_neg hnskip, if_neg hidx]
      rfl
    · intro _
      rw [dictGet_dictSet_other _ _ _ _ (by intro hcon; cases hcon)]
      exact dictGet_dictSet_self _ _ _
  · intro hleaf
    refine ⟨?_, applyPatch_mem_self _ _ _⟩
    rw [h0]
    simp only [hcur]
    rw [if_neg hnskip, if_neg hidx, if_neg hleaf]
    rfl

theorem c4_init_exclusion_bundle_witness :
    excludeWalk envC10 [] (.real ["InitCase", "__init__"]) "InitCase.__init__" 2 1
        (.mock 0 ["InitCase"]) ["__init__"] (sessX, [])
      = .ok (applyPatch (getArgsAndCallable envC10 (.real ["InitCase", "__init__"])
               [.mock 0 ["InitCase"]] sessX).2
               (attrLoc (.mock 0 ["InitCase"]) "m__init__") (.real ["InitCase", "__init__"]),
             dictSet (dictSet [] (.byObj (.real ["InitCase", "__init__"]))
                 (getArgsAndCallable envC10 (.real ["InitCase", "__init__"])
                   [.mock 0 ["InitCase"]] sessX).1)
               (.byPath "InitCase.__init__")
               (getArgsAndCallable envC10 (.real ["InitCase", "__init__"])
                 [.mock 0 ["InitCase"]] sessX).1) :=
  ((c4_init_exclusion_bundle envC10 [] (.real ["InitCase", "__init__"])
      (.mock 0 ["InitCase", "__init__"]) (.mock 0 ["InitCase"]) "InitCase.__init__"
      "__init__" 2 1 sessX []
      (by decide) (by decide) (by decide)).1 rfl).1
